import Mathlib

/-!
# A verification development for the `llm_intents` cache and Google search tool

This file gives a shallow embedding, in Lean 4, of the two core modules of the
`llm_intents` repository:

* `custom_components/llm_intents/cache.py` — `SQLiteCache`, a process-wide
  key-value store with TTL eviction, keyed by a SHA-256 digest of a
  `(namespace, canonical-JSON-params)` pair; and
* `custom_components/llm_intents/GoogleSearch.py` — `GoogleSearchTool`, the
  `search_web` tool handler that consults the cache, calls the Google Custom
  Search API on a miss, normalizes items, and returns a uniform envelope.

Python values exchanged with `json.dumps`/`json.loads` are modelled by the
inductive type `JVal` (JSON values with integer numerics — the only numeric
payloads the tool produces).  The SQLite table is modelled as a list of rows;
each SQL statement of the source becomes an explicit pure function on that
list.  `hashlib.sha256(...).hexdigest()` is embedded as an executable SHA-256
over the UTF-8 bytes, with all 32-bit words carried as `Nat` reduced mod 2^32.
`json.dumps` (both the canonical `sort_keys=True, separators=(",", ":")` form
used for cache keys and the default form used for stored payloads) and
`json.loads` are embedded as an executable serializer and recursive-descent
parser, and the serializer/parser round trip is proved.
-/

/-- A JSON value as produced by `resp.json()` / `json.loads` and consumed by
`json.dumps` in the source.  Numbers are integers: every number the tool ever
serializes (`num_results`) is a Python `int`. -/
inductive JVal where
  | null
  | bool (b : Bool)
  | num (n : Int)
  | str (s : String)
  | arr (items : List JVal)
  | obj (fields : List (String × JVal))
deriving Repr

mutual

/-- Boolean equality on `JVal` (written by hand: `JVal` nests through `List`). -/
def JVal.beq : JVal → JVal → Bool
  | .null, .null => true
  | .bool a, .bool b => a == b
  | .num a, .num b => a == b
  | .str a, .str b => a == b
  | .arr a, .arr b => JVal.beqItems a b
  | .obj a, .obj b => JVal.beqFields a b
  | _, _ => false
termination_by structural v => v

/-- Pointwise `JVal.beq` on item lists. -/
def JVal.beqItems : List JVal → List JVal → Bool
  | [], [] => true
  | a :: t, b :: u => JVal.beq a b && JVal.beqItems t u
  | _, _ => false
termination_by structural l => l

/-- Pointwise `JVal.beq` on member lists. -/
def JVal.beqFields : List (String × JVal) → List (String × JVal) → Bool
  | [], [] => true
  | (ka, va) :: t, (kb, vb) :: u => ka == kb && JVal.beq va vb && JVal.beqFields t u
  | _, _ => false
termination_by structural l => l

end

mutual

/-- `JVal.beq` decides equality. -/
theorem JVal.beq_iff : ∀ a b : JVal, (JVal.beq a b = true) ↔ a = b
  | .null, b => by cases b <;> simp [JVal.beq]
  | .bool x, b => by cases b <;> simp [JVal.beq]
  | .num x, b => by cases b <;> simp [JVal.beq]
  | .str x, b => by cases b <;> simp [JVal.beq]
  | .arr xs, b => by cases b <;> simp [JVal.beq, JVal.beqItems_iff xs]
  | .obj xs, b => by cases b <;> simp [JVal.beq, JVal.beqFields_iff xs]
termination_by structural a => a

/-- `JVal.beqItems` decides equality of item lists. -/
theorem JVal.beqItems_iff : ∀ t u : List JVal, (JVal.beqItems t u = true) ↔ t = u
  | [], u => by cases u <;> simp [JVal.beqItems]
  | a :: t, u => by
      cases u <;> simp [JVal.beqItems, JVal.beq_iff a, JVal.beqItems_iff t]
termination_by structural t => t

/-- `JVal.beqFields` decides equality of member lists. -/
theorem JVal.beqFields_iff :
    ∀ t u : List (String × JVal), (JVal.beqFields t u = true) ↔ t = u
  | [], u => by cases u <;> simp [JVal.beqFields]
  | (k, v) :: t, u => by
      cases u with
      | nil => simp [JVal.beqFields]
      | cons hd tl =>
          obtain ⟨k2, v2⟩ := hd
          simp [JVal.beqFields, JVal.beq_iff v, JVal.beqFields_iff t, and_assoc]
termination_by structural t => t

end

instance : DecidableEq JVal := fun a b => decidable_of_iff (JVal.beq a b = true) (JVal.beq_iff a b)

namespace PyJson

/-! ## `json.dumps`

Python's `json.dumps` with `ensure_ascii=True` (the default, used by both call
sites in `cache.py`).  The two call sites differ in options:

* `_make_key` uses `sort_keys=True, separators=(",", ":")` (canonical form);
* `set` uses the defaults: insertion order, separators `", "` / `": "`.

`sort_keys=True` sorts the members of every object encountered, which is the
same as sorting every object level first (`deepSort`) and then emitting with
plain member order, so the canonical form is factored that way below. -/

/-- The character for a hex digit `n < 16`, lowercase (as CPython emits). -/
def toHexChar (n : Nat) : Char :=
  if n < 10 then Char.ofNat ('0'.toNat + n) else Char.ofNat ('a'.toNat + (n - 10))

/-- A `\uXXXX` escape for a 16-bit code unit. -/
def uEsc (n : Nat) : List Char :=
  ['\\', 'u', toHexChar (n / 4096 % 16), toHexChar (n / 256 % 16),
   toHexChar (n / 16 % 16), toHexChar (n % 16)]

/-- One character of a JSON string, escaped as CPython's
`py_encode_basestring_ascii` does: short escapes for `"`, `\`, and the five
named control characters; printable ASCII (0x20–0x7e) kept; every other
character `\u`-escaped, with a surrogate pair for code points above 0xFFFF. -/
def escapeChar (c : Char) : List Char :=
  if c = '"' then ['\\', '"']
  else if c = '\\' then ['\\', '\\']
  else if c = '\n' then ['\\', 'n']
  else if c = '\t' then ['\\', 't']
  else if c = '\r' then ['\\', 'r']
  else if c = Char.ofNat 8 then ['\\', 'b']
  else if c = Char.ofNat 12 then ['\\', 'f']
  else if 0x20 ≤ c.toNat ∧ c.toNat ≤ 0x7e then [c]
  else if c.toNat < 0x10000 then uEsc c.toNat
  else
    let v := c.toNat - 0x10000
    uEsc (0xd800 + v / 0x400) ++ uEsc (0xdc00 + v % 0x400)

/-- A rendered JSON string: quote, escaped characters, quote. -/
def renderStr (s : String) : List Char :=
  '"' :: (s.toList.flatMap escapeChar ++ ['"'])

/-- Decimal digits of `n`, most significant first, prepended to `acc`; `fuel`
only bounds the loop (any `fuel > n` is enough), keeping the recursion
structural so the kernel can evaluate it. -/
def natDigitsGo (fuel : Nat) (n : Nat) (acc : List Char) : List Char :=
  match fuel with
  | 0 => acc
  | fuel + 1 =>
    if n < 10 then Char.ofNat ('0'.toNat + n % 10) :: acc
    else natDigitsGo fuel (n / 10) (Char.ofNat ('0'.toNat + n % 10) :: acc)

/-- Decimal digits of `n`, most significant first. -/
def natDigits (n : Nat) (acc : List Char) : List Char :=
  natDigitsGo (n + 1) n acc

/-- The decimal rendering of an integer, as JSON emits a Python `int`. -/
def intChars (i : Int) : List Char :=
  (if i < 0 then ['-'] else []) ++ natDigits i.natAbs []

mutual

/-- Emit a JSON value; `isep` is the item separator and `ksep` the
key-value separator (the `separators` option of `json.dumps`). -/
def emit (isep ksep : List Char) : JVal → List Char
  | .num n => intChars n
  | .bool false => ['f', 'a', 'l', 's', 'e']
  | .bool true => ['t', 'r', 'u', 'e']
  | .null => ['n', 'u', 'l', 'l']
  | .str s => renderStr s
  | .arr items => '[' :: (emitItems isep ksep items ++ [']'])
  | .obj fields => '{' :: (emitFields isep ksep fields ++ ['}'])
termination_by structural v => v

/-- Array items joined by `isep`. -/
def emitItems (isep ksep : List Char) : List JVal → List Char
  | [] => []
  | [v] => emit isep ksep v
  | v :: vs => emit isep ksep v ++ isep ++ emitItems isep ksep vs
termination_by structural l => l

/-- Object members `key ksep value` joined by `isep`. -/
def emitFields (isep ksep : List Char) : List (String × JVal) → List Char
  | [] => []
  | [(k, v)] => renderStr k ++ ksep ++ emit isep ksep v
  | (k, v) :: fs => renderStr k ++ ksep ++ emit isep ksep v ++ isep ++ emitFields isep ksep fs
termination_by structural l => l

end

/-- CPython's `str <=`, on the code-point lists: lexicographic by code point. -/
def charListLe : List Char → List Char → Bool
  | [], _ => true
  | _ :: _, [] => false
  | a :: t, b :: u =>
    if a.toNat < b.toNat then true
    else if b.toNat < a.toNat then false
    else charListLe t u

theorem charListLe_total : ∀ s t : List Char, charListLe s t = true ∨ charListLe t s = true
  | [], _ => .inl rfl
  | _ :: _, [] => .inr rfl
  | a :: t, b :: u => by
      rcases Nat.lt_trichotomy a.toNat b.toNat with h | h | h
      · exact .inl (by simp [charListLe, h])
      · rcases charListLe_total t u with ih | ih
        · exact .inl (by simp [charListLe, h, ih])
        · exact .inr (by simp [charListLe, h.symm, ih])
      · exact .inr (by simp [charListLe, h])

theorem charListLe_trans : ∀ s t u : List Char,
    charListLe s t = true → charListLe t u = true → charListLe s u = true
  | [], _, _, _, _ => rfl
  | _ :: _, [], _, h, _ => by simp [charListLe] at h
  | _ :: _, _ :: _, [], _, h => by simp [charListLe] at h
  | a :: s, b :: t, c :: u, h1, h2 => by
      simp only [charListLe] at h1 h2 ⊢
      split at h1
      · rename_i hab
        split at h2
        · rename_i hbc; simp [Nat.lt_trans hab hbc]
        · split at h2
          · simp at h2
          · rename_i hcb hbc
            have : b.toNat = c.toNat := by omega
            simp [this ▸ hab]
      · split at h1
        · simp at h1
        · rename_i hba hab
          have hab' : a.toNat = b.toNat := by omega
          split at h2
          · rename_i hbc; simp [hab' ▸ hbc]
          · split at h2
            · simp at h2
            · rename_i hcb hbc
              have hbc' : b.toNat = c.toNat := by omega
              rw [if_neg (by omega), if_neg (by omega)]
              exact charListLe_trans s t u h1 h2

theorem char_toNat_inj {a b : Char} (h : a.toNat = b.toNat) : a = b := by
  have h2 := Char.ofNat_toNat a
  rw [h, Char.ofNat_toNat] at h2
  exact h2.symm

theorem charListLe_antisymm : ∀ s t : List Char,
    charListLe s t = true → charListLe t s = true → s = t
  | [], [], _, _ => rfl
  | [], _ :: _, _, h => by simp [charListLe] at h
  | _ :: _, [], h, _ => by simp [charListLe] at h
  | a :: s, b :: t, h1, h2 => by
      simp only [charListLe] at h1 h2
      split at h1
      · rename_i hab
        rw [if_neg (by omega), if_pos hab] at h2
        exact absurd h2 (by simp)
      · split at h1
        · simp at h1
        · rename_i hba hab
          have key : a = b := char_toNat_inj (by omega)
          rw [if_neg hba, if_neg hab] at h2
          rw [key, charListLe_antisymm s t h1 h2]

/-- The member order `sorted(d.items())` gives: ordered by key with CPython's
string comparison (keys in one Python dict are distinct, so the tie-break on
values never fires). -/
def keyLe (a b : String × JVal) : Prop := charListLe a.1.toList b.1.toList = true

instance : DecidableRel keyLe := fun a b =>
  inferInstanceAs (Decidable (charListLe a.1.toList b.1.toList = true))

instance : IsTotal (String × JVal) keyLe := ⟨fun a b => charListLe_total a.1.toList b.1.toList⟩

instance : IsTrans (String × JVal) keyLe :=
  ⟨fun a b c => charListLe_trans a.1.toList b.1.toList c.1.toList⟩

/-- Two members related both ways by `keyLe` share their key. -/
theorem keyLe_antisymm_key {a b : String × JVal} (h1 : keyLe a b) (h2 : keyLe b a) :
    a.1 = b.1 := by
  have := charListLe_antisymm a.1.toList b.1.toList h1 h2
  calc a.1 = ⟨a.1.toList⟩ := rfl
    _ = ⟨b.1.toList⟩ := by rw [this]
    _ = b.1 := rfl

mutual

/-- Sort the members of every object, at every nesting level, by key — the
object order `json.dumps(..., sort_keys=True)` emits. -/
def deepSort : JVal → JVal
  | .null => .null
  | .bool b => .bool b
  | .num n => .num n
  | .str s => .str s
  | .arr items => .arr (deepSortItems items)
  | .obj fields => .obj (List.insertionSort keyLe (deepSortFields fields))
termination_by structural v => v

/-- `deepSort` on each array item. -/
def deepSortItems : List JVal → List JVal
  | [] => []
  | v :: vs => deepSort v :: deepSortItems vs
termination_by structural l => l

/-- `deepSort` on each member's value. -/
def deepSortFields : List (String × JVal) → List (String × JVal)
  | [] => []
  | (k, v) :: fs => (k, deepSort v) :: deepSortFields fs
termination_by structural l => l

end

/-- `json.dumps(v, sort_keys=True, separators=(",", ":"))` — the canonical
compact form `SQLiteCache._make_key` hashes. -/
def dumpsCanonical (v : JVal) : String :=
  ⟨emit [','] [':'] (deepSort v)⟩

/-- `json.dumps(v)` with the default options (insertion order, separators
`", "` and `": "`) — the form `SQLiteCache.set` stores. -/
def dumps (v : JVal) : String :=
  ⟨emit [',', ' '] [':', ' '] v⟩

end PyJson

example : PyJson.dumps (.obj [("a", .num 1), ("b", .str "x")]) = "\x7b\"a\": 1, \"b\": \"x\"\x7d" := by
  decide

example : PyJson.dumpsCanonical (.obj [("b", .str "x"), ("a", .num (-12))]) = "\x7b\"a\":-12,\"b\":\"x\"\x7d" := by
  decide

namespace PyJson

/-! ## `json.loads`

A recursive-descent parser for the JSON fragment the repository exchanges:
values are `null`, booleans, integer numbers, strings (with all escapes,
including surrogate pairs), arrays and objects, with arbitrary whitespace
between tokens.  Where CPython's `json.loads` would build something no `JVal`
carries — a float, or a string containing a lone surrogate — the parser
returns `none`; `json.dumps` output never contains either.  The recursion on
values is structural on a fuel counter so the kernel can evaluate it;
`loads` passes fuel that the round-trip theorem shows is always enough. -/

/-- JSON whitespace. -/
def isWsChar (c : Char) : Bool := c == ' ' || c == '\t' || c == '\n' || c == '\r'

/-- Drop leading JSON whitespace. -/
def skipWs : List Char → List Char
  | c :: cs => if isWsChar c then skipWs cs else c :: cs
  | [] => []

/-- ASCII decimal digit. -/
def isDigitChar (c : Char) : Bool := 48 ≤ c.toNat && c.toNat ≤ 57

/-- Split a leading digit run from the rest. -/
def takeDigits : List Char → List Char × List Char
  | c :: cs =>
    if isDigitChar c then
      let (ds, r) := takeDigits cs
      (c :: ds, r)
    else ([], c :: cs)
  | [] => ([], [])

/-- The number a digit run denotes. -/
def digitsToNat (ds : List Char) : Nat :=
  ds.foldl (fun a c => a * 10 + (c.toNat - 48)) 0

/-- The value of one hex digit, either case. -/
def hexVal (c : Char) : Option Nat :=
  if 48 ≤ c.toNat ∧ c.toNat ≤ 57 then some (c.toNat - 48)
  else if 97 ≤ c.toNat ∧ c.toNat ≤ 102 then some (c.toNat - 87)
  else if 65 ≤ c.toNat ∧ c.toNat ≤ 70 then some (c.toNat - 55)
  else none

/-- The value of a four-hex-digit group. -/
def hex4 (a b c d : Char) : Option Nat :=
  match hexVal a, hexVal b, hexVal c, hexVal d with
  | some va, some vb, some vc, some vd => some (((va * 16 + vb) * 16 + vc) * 16 + vd)
  | _, _, _, _ => none

/-- Short escapes after a backslash. -/
def unescChar : Char → Option Char
  | 'n' => some '\n'
  | 't' => some '\t'
  | 'r' => some '\r'
  | 'b' => some (Char.ofNat 8)
  | 'f' => some (Char.ofNat 12)
  | '"' => some '"'
  | '\\' => some '\\'
  | '/' => some '/'
  | _ => none

/-- Parse the `\uXXXX` low surrogate that must follow a high surrogate `hi`,
yielding the joined code point. -/
def parseLowSur (hi : Nat) : List Char → Option (Char × List Char)
  | '\\' :: 'u' :: a2 :: b2 :: c2 :: d2 :: r2 =>
    match hex4 a2 b2 c2 d2 with
    | some m =>
      if 0xdc00 ≤ m ∧ m ≤ 0xdfff then
        some (Char.ofNat (0x10000 + (hi - 0xd800) * 0x400 + (m - 0xdc00)), r2)
      else none
    | none => none
  | _ => none

/-- Parse what follows `\u`: four hex digits, joining a surrogate pair with a
following `\uXXXX` low surrogate (`parseLowSur`).  A lone surrogate makes the
parse fail (CPython would build a string Lean's `Char` cannot carry —
`json.dumps` output never contains one). -/
def parseUEsc : List Char → Option (Char × List Char)
  | a :: b :: c :: d :: r =>
    match hex4 a b c d with
    | none => none
    | some n =>
      if 0xd800 ≤ n ∧ n ≤ 0xdbff then parseLowSur n r
      else if 0xdc00 ≤ n ∧ n ≤ 0xdfff then none
      else some (Char.ofNat n, r)
  | _ => none

/-- Parse one escape after the backslash. -/
def parseOneEsc : List Char → Option (Char × List Char)
  | 'u' :: r => parseUEsc r
  | e :: r => (unescChar e).map (fun ch => (ch, r))
  | [] => none

/-- Parse a string body after the opening quote, accumulating in reverse.
`fuel` only bounds the loop (the input length is always enough: every step
consumes at least one character); it keeps the recursion structural so the
kernel can evaluate the parser. -/
def parseStrAux (fuel : Nat) (acc : List Char) (cs : List Char) :
    Option (List Char × List Char) :=
  match fuel with
  | 0 => none
  | fuel + 1 =>
    match cs with
    | [] => none
    | c :: rest =>
      if c = '"' then some (acc.reverse, rest)
      else if c = '\\' then
        match parseOneEsc rest with
        | some (ch, r) => parseStrAux fuel (ch :: acc) r
        | none => none
      else parseStrAux fuel (c :: acc) rest

/-- Split a leading minus sign. -/
def splitSign : List Char → Bool × List Char
  | '-' :: r => (true, r)
  | cs => (false, cs)

/-- Whether the input continues a number into fraction or exponent. -/
def numContinue : List Char → Bool
  | c :: _ => c == '.' || c == 'e' || c == 'E'
  | [] => false

/-- Parse an integer: optional minus, a digit run, and no fractional or
exponent continuation (a float fails: no `JVal` carries it). -/
def parseNum (cs : List Char) : Option (Int × List Char) :=
  let (neg, cs1) := splitSign cs
  let (ds, cs2) := takeDigits cs1
  if ds.isEmpty then none
  else if numContinue cs2 then none
  else some (if neg then -(digitsToNat ds : Int) else (digitsToNat ds : Int), cs2)

/-- Expect a literal word suffix, returning the remainder. -/
def stripWord : List Char → List Char → Option (List Char)
  | [], r => some r
  | w :: ws, c :: r => if c = w then stripWord ws r else none
  | _ :: _, [] => none

mutual

/-- Parse one JSON value after optional whitespace. -/
def parseVal (fuel : Nat) (cs : List Char) : Option (JVal × List Char) :=
  match fuel with
  | 0 => none
  | fuel + 1 =>
    match skipWs cs with
    | [] => none
    | c :: r =>
      if c = 'n' then (stripWord ['u', 'l', 'l'] r).map (fun r2 => (.null, r2))
      else if c = 't' then (stripWord ['r', 'u', 'e'] r).map (fun r2 => (.bool true, r2))
      else if c = 'f' then (stripWord ['a', 'l', 's', 'e'] r).map (fun r2 => (.bool false, r2))
      else if c = '"' then (parseStrAux (r.length + 1) [] r).map (fun p => (.str ⟨p.1⟩, p.2))
      else if c = '[' then
        match skipWs r with
        | [] => none
        | c2 :: r2 =>
          if c2 = ']' then some (.arr [], r2)
          else (parseItems fuel (c2 :: r2)).map (fun p => (.arr p.1, p.2))
      else if c = '{' then
        match skipWs r with
        | [] => none
        | c2 :: r2 =>
          if c2 = '}' then some (.obj [], r2)
          else (parseFields fuel (c2 :: r2)).map (fun p => (.obj p.1, p.2))
      else if c = '-' ∨ isDigitChar c then (parseNum (c :: r)).map (fun p => (.num p.1, p.2))
      else none

/-- Parse one or more comma-separated array items up to the closing bracket. -/
def parseItems (fuel : Nat) (cs : List Char) : Option (List JVal × List Char) :=
  match fuel with
  | 0 => none
  | fuel + 1 =>
    match parseVal fuel cs with
    | none => none
    | some (v, r) =>
      match skipWs r with
      | [] => none
      | c :: r2 =>
        if c = ',' then (parseItems fuel r2).map (fun p => (v :: p.1, p.2))
        else if c = ']' then some ([v], r2)
        else none

/-- Parse one or more comma-separated object members up to the closing brace. -/
def parseFields (fuel : Nat) (cs : List Char) : Option (List (String × JVal) × List Char) :=
  match fuel with
  | 0 => none
  | fuel + 1 =>
    match skipWs cs with
    | [] => none
    | c :: r =>
      if c = '"' then
        match parseStrAux (r.length + 1) [] r with
        | none => none
        | some (k, r1) =>
          match skipWs r1 with
          | [] => none
          | c2 :: r2 =>
            if c2 = ':' then
              match parseVal fuel r2 with
              | none => none
              | some (v, r3) =>
                match skipWs r3 with
                | [] => none
                | c3 :: r4 =>
                  if c3 = ',' then (parseFields fuel r4).map (fun p => ((⟨k⟩, v) :: p.1, p.2))
                  else if c3 = '}' then some ([(⟨k⟩, v)], r4)
                  else none
            else none
      else none

end

/-- `json.loads(s)`, as the tool's `JVal` fragment: the parsed value when `s`
is one complete JSON document, `none` otherwise (`json.JSONDecodeError`). -/
def loads (s : String) : Option JVal :=
  let cs := s.toList
  match parseVal (cs.length + 1) cs with
  | some (v, r) => if (skipWs r).isEmpty then some v else none
  | none => none

/-! ## The serializer/parser round trip

`loads (dumps v) = some v` — the fact `SQLiteCache.get` relies on to give
back what `SQLiteCache.set` stored.  The proof follows the classic
printer-inversion scheme: a closed form for the digit loop, inversion lemmas
for numbers and strings, and a mutual induction over the value grammar. -/

/-- Closed form of the digit loop: digits of `n / 10`, then the last digit. -/
def digitsOfSpec (n : Nat) : List Char :=
  if _ : n < 10 then [Char.ofNat (48 + n % 10)]
  else digitsOfSpec (n / 10) ++ [Char.ofNat (48 + n % 10)]
termination_by n
decreasing_by exact Nat.div_lt_self (by omega) (by omega)

theorem natDigitsGo_eq : ∀ n f acc, n < f → natDigitsGo f n acc = digitsOfSpec n ++ acc := by
  intro n
  induction n using Nat.strongRecOn with
  | _ n ih =>
    intro f acc h
    match f with
    | 0 => omega
    | f + 1 =>
      rw [natDigitsGo, digitsOfSpec]
      by_cases h10 : n < 10
      · simp [h10]
      · rw [dif_neg h10, if_neg h10]
        rw [ih (n / 10) (Nat.div_lt_self (by omega) (by omega)) f _ (by omega)]
        simp

theorem natDigits_eq (n : Nat) (acc : List Char) : natDigits n acc = digitsOfSpec n ++ acc :=
  natDigitsGo_eq n (n + 1) acc (by omega)

theorem digitChar_spec : ∀ k, k < 10 →
    (Char.ofNat (48 + k)).toNat = 48 + k ∧ isDigitChar (Char.ofNat (48 + k)) = true := by
  decide

theorem digitsOfSpec_ne_nil (n : Nat) : digitsOfSpec n ≠ [] := by
  rw [digitsOfSpec]
  split <;> simp

theorem digitsOfSpec_digits (n : Nat) : ∀ c ∈ digitsOfSpec n, isDigitChar c = true := by
  induction n using Nat.strongRecOn with
  | _ n ih =>
    intro c hc
    rw [digitsOfSpec] at hc
    have hd := (digitChar_spec (n % 10) (Nat.mod_lt _ (by omega))).2
    split at hc
    · simp at hc
      simp [hc, hd]
    · rw [List.mem_append, List.mem_singleton] at hc
      rcases hc with hc | hc
      · exact ih (n / 10) (Nat.div_lt_self (by omega) (by omega)) c hc
      · simp [hc, hd]

theorem digitsToNat_digitsOfSpec (n : Nat) : digitsToNat (digitsOfSpec n) = n := by
  suffices h : ∀ m a, (digitsOfSpec m).foldl (fun x c => x * 10 + (c.toNat - 48)) a
      = a * 10 ^ (digitsOfSpec m).length + m by
    have := h n 0
    simpa [digitsToNat] using this
  intro m
  induction m using Nat.strongRecOn with
  | _ m ih =>
    intro a
    rw [digitsOfSpec]
    have hd := (digitChar_spec (m % 10) (Nat.mod_lt _ (by omega))).1
    split
    · rename_i h10
      simp [hd]
      omega
    · rename_i h10
      rw [List.foldl_append, ih (m / 10) (Nat.div_lt_self (by omega) (by omega)) a]
      simp [hd]
      ring_nf
      omega

/-- A remainder that cannot continue a number: empty, or led by a character
that is no digit and none of `.`, `e`, `E`. -/
def numStop : List Char → Bool
  | [] => true
  | c :: _ => !(isDigitChar c || c == '.' || c == 'e' || c == 'E')

theorem takeDigits_stop {cs : List Char} (h : numStop cs = true) : takeDigits cs = ([], cs) := by
  match cs with
  | [] => rfl
  | c :: t =>
    simp only [numStop, Bool.not_eq_true', Bool.or_eq_false_iff] at h
    simp [takeDigits, h.1.1.1]

theorem takeDigits_append {pre post : List Char} (hpre : ∀ d ∈ pre, isDigitChar d = true)
    (hpost : takeDigits post = ([], post)) : takeDigits (pre ++ post) = (pre, post) := by
  induction pre with
  | cons d ds ihd =>
    have hd1 : isDigitChar d = true := hpre d (by simp)
    have hds := ihd (fun x hx => hpre x (by simp [hx]))
    simp [takeDigits, hd1, hds]
  | nil => simpa using hpost

theorem numStop_head {c : Char} {t : List Char} (h : numStop (c :: t) = true) :
    isDigitChar c = false ∧ (c == '.') = false ∧ (c == 'e') = false ∧ (c == 'E') = false := by
  simp only [numStop, Bool.not_eq_true', Bool.or_eq_false_iff] at h
  exact ⟨h.1.1.1, h.1.1.2, h.1.2, h.2⟩

theorem splitSign_minus (r : List Char) : splitSign ('-' :: r) = (true, r) := rfl

theorem splitSign_other {c : Char} (r : List Char) (hc : c ≠ '-') :
    splitSign (c :: r) = (false, c :: r) := by
  rw [splitSign.eq_def]
  split
  · rename_i heq
    injection heq with h1 _
    exact absurd h1 hc
  · rfl

theorem numContinue_of_stop {cs : List Char} (h : numStop cs = true) :
    numContinue cs = false := by
  match cs with
  | [] => rfl
  | c :: t =>
    have := numStop_head h
    simp [numContinue, this.2.1, this.2.2.1, this.2.2.2]

/-- `parseNum` inverts `intChars` before any remainder a JSON context
supplies. -/
theorem parseNum_intChars (i : Int) (rest : List Char) (h : numStop rest = true) :
    parseNum (intChars i ++ rest) = some (i, rest) := by
  have hdig := digitsOfSpec_digits i.natAbs
  have hne := digitsOfSpec_ne_nil i.natAbs
  have htd : takeDigits (digitsOfSpec i.natAbs ++ rest) = (digitsOfSpec i.natAbs, rest) :=
    takeDigits_append hdig (takeDigits_stop h)
  have hval := digitsToNat_digitsOfSpec i.natAbs
  have hok := numContinue_of_stop h
  by_cases hneg : i < 0
  · have harg : intChars i ++ rest = '-' :: (digitsOfSpec i.natAbs ++ rest) := by
      simp [intChars, hneg, natDigits_eq]
    rw [harg]
    simp only [parseNum, splitSign_minus, htd]
    simp only [List.isEmpty_iff]
    rw [if_neg hne, if_neg (by simp [hok]), hval]
    simp
    rw [Int.abs_eq_natAbs]
    omega
  · obtain ⟨c0, t0, h0⟩ : ∃ c0 t0, digitsOfSpec i.natAbs = c0 :: t0 := by
      match hm : digitsOfSpec i.natAbs with
      | [] => exact absurd hm hne
      | c0 :: t0 => exact ⟨c0, t0, rfl⟩
    have hc0 : isDigitChar c0 = true := hdig c0 (by rw [h0]; simp)
    have hc0m : c0 ≠ '-' := by
      intro heq
      rw [heq] at hc0
      simp [isDigitChar] at hc0
    have harg : intChars i ++ rest = c0 :: (t0 ++ rest) := by
      simp [intChars, hneg, natDigits_eq, h0]
    rw [harg]
    have htd2 : takeDigits (c0 :: (t0 ++ rest)) = (c0 :: t0, rest) := by
      rw [show c0 :: (t0 ++ rest) = (c0 :: t0) ++ rest from rfl, ← h0]
      exact htd
    simp only [parseNum, splitSign_other _ hc0m, htd2]
    simp only [List.isEmpty_iff]
    rw [if_neg (by simp), if_neg (by simp [hok])]
    rw [← h0, hval]
    simp
    omega

theorem hexVal_toHexChar : ∀ d, d < 16 → hexVal (toHexChar d) = some d := by decide

theorem hex4_uEsc_digits (n : Nat) (h : n < 65536) :
    hex4 (toHexChar (n / 4096 % 16)) (toHexChar (n / 256 % 16))
      (toHexChar (n / 16 % 16)) (toHexChar (n % 16)) = some n := by
  rw [hex4, hexVal_toHexChar _ (by omega), hexVal_toHexChar _ (by omega),
    hexVal_toHexChar _ (by omega), hexVal_toHexChar _ (by omega)]
  have : ((n / 4096 % 16 * 16 + n / 256 % 16) * 16 + n / 16 % 16) * 16 + n % 16 = n := by omega
  simp [this]

theorem char_valid_range (c : Char) :
    c.toNat < 0xd800 ∨ (0xe000 ≤ c.toNat ∧ c.toNat < 0x110000) := by
  have h := c.valid
  unfold UInt32.isValidChar Nat.isValidChar at h
  exact h

theorem string_mk_toList (s : String) : (⟨s.toList⟩ : String) = s := by
  obtain ⟨d⟩ := s
  rfl

/-- Every escape is at least one character long. -/
theorem one_le_length_escapeChar (c : Char) : 1 ≤ (escapeChar c).length := by
  rw [escapeChar]
  split_ifs <;> simp [uEsc]

/-- Escaping never shortens a string. -/
theorem length_le_flatMap_escapeChar : ∀ cs : List Char,
    cs.length ≤ (cs.flatMap escapeChar).length
  | [] => by simp
  | c :: cs => by
    rw [List.flatMap_cons, List.length_append]
    have h1 := one_le_length_escapeChar c
    have h2 := length_le_flatMap_escapeChar cs
    simp only [List.length_cons]
    omega

/-- One-step unfolding of `parseStrAux` at successor fuel (definitional). -/
theorem parseStrAux_cons (f : Nat) (acc : List Char) (c : Char) (rest : List Char) :
    parseStrAux (f + 1) acc (c :: rest) =
      if c = '"' then some (acc.reverse, rest)
      else if c = '\\' then
        match parseOneEsc rest with
        | some (ch, r) => parseStrAux f (ch :: acc) r
        | none => none
      else parseStrAux f (c :: acc) rest := rfl

/-- Unfolding of `parseUEsc` on four leading digits (definitional). -/
theorem parseUEsc_cons (a b c d : Char) (r : List Char) :
    parseUEsc (a :: b :: c :: d :: r) =
      match hex4 a b c d with
      | none => none
      | some n =>
        if 0xd800 ≤ n ∧ n ≤ 0xdbff then parseLowSur n r
        else if 0xdc00 ≤ n ∧ n ≤ 0xdfff then none
        else some (Char.ofNat n, r) := rfl

/-- Unfolding of `parseLowSur` on a `\uXXXX` continuation (definitional). -/
theorem parseLowSur_cons (hi : Nat) (a b c d : Char) (r : List Char) :
    parseLowSur hi ('\\' :: 'u' :: a :: b :: c :: d :: r) =
      match hex4 a b c d with
      | some m =>
        if 0xdc00 ≤ m ∧ m ≤ 0xdfff then
          some (Char.ofNat (0x10000 + (hi - 0xd800) * 0x400 + (m - 0xdc00)), r)
        else none
      | none => none := rfl

set_option maxRecDepth 4000 in
/-- Parsing one escaped character undoes the escaping, for one unit of fuel. -/
theorem parseStrAux_step (c : Char) (f : Nat) (acc X : List Char) :
    parseStrAux (f + 1) acc (escapeChar c ++ X) = parseStrAux f (c :: acc) X := by
  by_cases h1 : c = '"'
  · subst h1; rfl
  by_cases h2 : c = '\\'
  · subst h2; rfl
  by_cases h3 : c = '\n'
  · subst h3; rfl
  by_cases h4 : c = '\t'
  · subst h4; rfl
  by_cases h5 : c = '\r'
  · subst h5; rfl
  by_cases h6 : c = Char.ofNat 8
  · subst h6; rfl
  by_cases h7 : c = Char.ofNat 12
  · subst h7; rfl
  by_cases h8 : 0x20 ≤ c.toNat ∧ c.toNat ≤ 0x7e
  · have he : escapeChar c = [c] := by
      simp [escapeChar, h1, h2, h3, h4, h5, h6, h7, h8]
    rw [he, List.cons_append, List.nil_append, parseStrAux_cons, if_neg h1, if_neg h2]
  by_cases h9 : c.toNat < 0x10000
  · have he : escapeChar c = uEsc c.toNat := by
      rw [escapeChar]
      rw [if_neg h1, if_neg h2, if_neg h3, if_neg h4, if_neg h5, if_neg h6, if_neg h7,
        if_neg h8, if_pos h9]
    have hval := char_valid_range c
    rw [he, uEsc]
    simp only [List.cons_append, List.nil_append]
    rw [parseStrAux_cons, if_neg (by decide), if_pos rfl]
    rw [show parseOneEsc ('u' :: toHexChar (c.toNat / 4096 % 16) :: toHexChar (c.toNat / 256 % 16)
        :: toHexChar (c.toNat / 16 % 16) :: toHexChar (c.toNat % 16) :: X)
      = parseUEsc (toHexChar (c.toNat / 4096 % 16) :: toHexChar (c.toNat / 256 % 16)
        :: toHexChar (c.toNat / 16 % 16) :: toHexChar (c.toNat % 16) :: X) from rfl]
    rw [parseUEsc_cons, hex4_uEsc_digits c.toNat (by omega)]
    rw [show (match some c.toNat with
      | none => none
      | some n =>
        if 0xd800 ≤ n ∧ n ≤ 0xdbff then parseLowSur n X
        else if 0xdc00 ≤ n ∧ n ≤ 0xdfff then none
        else some (Char.ofNat n, X))
      = (if 0xd800 ≤ c.toNat ∧ c.toNat ≤ 0xdbff then parseLowSur c.toNat X
        else if 0xdc00 ≤ c.toNat ∧ c.toNat ≤ 0xdfff then none
        else some (Char.ofNat c.toNat, X)) from rfl]
    rw [if_neg (by omega), if_neg (by omega), Char.ofNat_toNat]
  · have hval := char_valid_range c
    have he : escapeChar c =
        uEsc (0xd800 + (c.toNat - 0x10000) / 0x400) ++
          uEsc (0xdc00 + (c.toNat - 0x10000) % 0x400) := by
      rw [escapeChar]
      rw [if_neg h1, if_neg h2, if_neg h3, if_neg h4, if_neg h5, if_neg h6, if_neg h7,
        if_neg h8, if_neg h9]
    have hhi : (0xd800 + (c.toNat - 0x10000) / 0x400) < 65536 := by omega
    have hhir : 0xd800 ≤ (0xd800 + (c.toNat - 0x10000) / 0x400) ∧
        (0xd800 + (c.toNat - 0x10000) / 0x400) ≤ 0xdbff := by
      constructor <;> omega
    have hlo : (0xdc00 + (c.toNat - 0x10000) % 0x400) < 65536 := by omega
    have hlor : 0xdc00 ≤ (0xdc00 + (c.toNat - 0x10000) % 0x400) ∧
        (0xdc00 + (c.toNat - 0x10000) % 0x400) ≤ 0xdfff := by
      constructor <;> omega
    have harith : 0x10000 + (0xd800 + (c.toNat - 0x10000) / 0x400 - 0xd800) * 0x400 +
        (0xdc00 + (c.toNat - 0x10000) % 0x400 - 0xdc00) = c.toNat := by
      omega
    rw [he, uEsc, uEsc]
    simp only [List.cons_append, List.nil_append]
    rw [parseStrAux_cons, if_neg (by decide), if_pos rfl]
    rw [show ∀ Y, parseOneEsc ('u' :: Y) = parseUEsc Y from fun _ => rfl]
    rw [parseUEsc_cons, hex4_uEsc_digits _ hhi]
    rw [show ∀ (Y : List Char), (match some (0xd800 + (c.toNat - 0x10000) / 0x400) with
      | none => none
      | some n =>
        if 0xd800 ≤ n ∧ n ≤ 0xdbff then parseLowSur n Y
        else if 0xdc00 ≤ n ∧ n ≤ 0xdfff then none
        else some (Char.ofNat n, Y))
      = (if 0xd800 ≤ (0xd800 + (c.toNat - 0x10000) / 0x400) ∧
            (0xd800 + (c.toNat - 0x10000) / 0x400) ≤ 0xdbff then
          parseLowSur (0xd800 + (c.toNat - 0x10000) / 0x400) Y
        else if 0xdc00 ≤ (0xd800 + (c.toNat - 0x10000) / 0x400) ∧
            (0xd800 + (c.toNat - 0x10000) / 0x400) ≤ 0xdfff then none
        else some (Char.ofNat (0xd800 + (c.toNat - 0x10000) / 0x400), Y)) from fun _ => rfl]
    rw [if_pos hhir, parseLowSur_cons, hex4_uEsc_digits _ hlo]
    rw [show (match some (0xdc00 + (c.toNat - 0x10000) % 0x400) with
      | some m =>
        if 0xdc00 ≤ m ∧ m ≤ 0xdfff then
          some (Char.ofNat (0x10000 + (0xd800 + (c.toNat - 0x10000) / 0x400 - 0xd800) * 0x400 +
            (m - 0xdc00)), X)
        else none
      | none => none)
      = (if 0xdc00 ≤ (0xdc00 + (c.toNat - 0x10000) % 0x400) ∧
            (0xdc00 + (c.toNat - 0x10000) % 0x400) ≤ 0xdfff then
          some (Char.ofNat (0x10000 + (0xd800 + (c.toNat - 0x10000) / 0x400 - 0xd800) * 0x400 +
            (0xdc00 + (c.toNat - 0x10000) % 0x400 - 0xdc00)), X)
        else none) from rfl]
    rw [if_pos hlor, harith, Char.ofNat_toNat]

/-- Parsing an escaped run stops exactly at the closing quote. -/
theorem parseStrAux_flatMap : ∀ (cs : List Char) (f : Nat) (acc rest : List Char),
    cs.length < f →
    parseStrAux f acc (cs.flatMap escapeChar ++ '"' :: rest) = some (acc.reverse ++ cs, rest)
  | [], f, acc, rest, h => by
    match f, h with
    | f + 1, _ => simp [parseStrAux]
  | c :: cs, f, acc, rest, h => by
    match f, h with
    | f + 1, h =>
      rw [List.flatMap_cons, List.append_assoc, parseStrAux_step,
        parseStrAux_flatMap cs f (c :: acc) rest (by simp at h; omega)]
      simp

/-- The string round trip: parsing a rendered string body recovers it. -/
theorem parseStrAux_renderStr (s : String) (f : Nat) (rest : List Char)
    (h : s.toList.length < f) :
    parseStrAux f [] (s.toList.flatMap escapeChar ++ '"' :: rest) = some (s.toList, rest) := by
  simpa using parseStrAux_flatMap s.toList f [] rest h

mutual

/-- Fuel that `parseVal` needs for a value: one unit per grammar step. -/
def jsize : JVal → Nat
  | .null => 1
  | .bool _ => 1
  | .num _ => 1
  | .str _ => 1
  | .arr items => 1 + jsizeItems items
  | .obj fields => 1 + jsizeFields fields
termination_by structural v => v

/-- Fuel for a nonempty item list (one `parseItems` frame per item). -/
def jsizeItems : List JVal → Nat
  | [] => 0
  | v :: vs => 1 + jsize v + jsizeItems vs
termination_by structural l => l

/-- Fuel for a nonempty member list (one `parseFields` frame per member). -/
def jsizeFields : List (String × JVal) → Nat
  | [] => 0
  | (_, v) :: fs => 1 + jsize v + jsizeFields fs
termination_by structural l => l

end

theorem skipWs_cons (c : Char) (cs : List Char) :
    skipWs (c :: cs) = if isWsChar c then skipWs cs else c :: cs := rfl

/-- A digit differs from every character whose code point is not a digit's. -/
theorem digitChar_ne {c : Char} (hc : isDigitChar c = true) {d : Char}
    (hd : d.toNat < 48 ∨ 57 < d.toNat) : c ≠ d := by
  intro h
  subst h
  simp only [isDigitChar, Bool.and_eq_true, decide_eq_true_eq] at hc
  omega

theorem digit_not_ws {c : Char} (hc : isDigitChar c = true) : isWsChar c = false := by
  simp only [isWsChar, Bool.or_eq_false_iff, beq_eq_false_iff_ne]
  refine ⟨⟨⟨?_, ?_⟩, ?_⟩, ?_⟩ <;> exact digitChar_ne hc (by decide)

/-- The first character of a rendered value: never whitespace, `]`, or `}`. -/
theorem emit_head (isep ksep : List Char) (v : JVal) :
    ∃ c t, emit isep ksep v = c :: t ∧ isWsChar c = false ∧ c ≠ ']' ∧ c ≠ '}' := by
  cases v
  case num n =>
    by_cases hn : n < 0
    · refine ⟨'-', digitsOfSpec n.natAbs, ?_, by decide, by decide, by decide⟩
      show intChars n = _
      simp [intChars, hn, natDigits_eq]
    · obtain ⟨c0, t0, h0⟩ : ∃ c0 t0, digitsOfSpec n.natAbs = c0 :: t0 := by
        match hm : digitsOfSpec n.natAbs with
        | [] => exact absurd hm (digitsOfSpec_ne_nil _)
        | c0 :: t0 => exact ⟨c0, t0, rfl⟩
      have hc0 : isDigitChar c0 = true := digitsOfSpec_digits n.natAbs c0 (by rw [h0]; simp)
      refine ⟨c0, t0, ?_, digit_not_ws hc0, digitChar_ne hc0 (by decide),
        digitChar_ne hc0 (by decide)⟩
      show intChars n = _
      simp [intChars, hn, natDigits_eq, h0]
  case bool b =>
    cases b
    all_goals refine ⟨_, _, rfl, ?_, ?_, ?_⟩
    all_goals decide
  all_goals refine ⟨_, _, rfl, ?_, ?_, ?_⟩
  all_goals decide

/-- `skipWs` does not move over a rendered value. -/
theorem skipWs_emit (isep ksep : List Char) (v : JVal) (x : List Char) :
    skipWs (emit isep ksep v ++ x) = emit isep ksep v ++ x := by
  obtain ⟨c, t, he, hws, _, _⟩ := emit_head isep ksep v
  rw [he, List.cons_append, skipWs_cons, if_neg (by simp [hws])]

/-- The first character of a rendered nonempty item list (its first value's). -/
theorem emitItems_cons_head (isep ksep : List Char) (v : JVal) (vs : List JVal) :
    ∃ c t, emitItems isep ksep (v :: vs) = c :: t ∧ isWsChar c = false ∧ c ≠ ']' ∧ c ≠ '}' := by
  obtain ⟨c, t, he, h1, h2, h3⟩ := emit_head isep ksep v
  cases vs with
  | nil => exact ⟨c, t, by simp [emitItems, he], h1, h2, h3⟩
  | cons w ws =>
    exact ⟨c, t ++ (isep ++ emitItems isep ksep (w :: ws)), by simp [emitItems, he], h1, h2, h3⟩

/-- A rendered nonempty member list starts with the first key's quote. -/
theorem emitFields_cons_head (isep ksep : List Char) (k : String) (v : JVal)
    (fs : List (String × JVal)) :
    ∃ t, emitFields isep ksep ((k, v) :: fs) = '"' :: t := by
  cases fs with
  | nil =>
    refine ⟨k.toList.flatMap escapeChar ++ ['"'] ++ (ksep ++ emit isep ksep v), ?_⟩
    simp [emitFields, renderStr]
  | cons g gs =>
    refine ⟨k.toList.flatMap escapeChar ++ ['"'] ++
      (ksep ++ (emit isep ksep v ++ (isep ++ emitFields isep ksep (g :: gs)))), ?_⟩
    simp [emitFields, renderStr]

/-- One-step unfolding of `parseVal` at successor fuel (definitional). -/
theorem parseVal_succ (f : Nat) (cs : List Char) :
    parseVal (f + 1) cs =
      match skipWs cs with
      | [] => none
      | c :: r =>
        if c = 'n' then (stripWord ['u', 'l', 'l'] r).map (fun r2 => (.null, r2))
        else if c = 't' then (stripWord ['r', 'u', 'e'] r).map (fun r2 => (.bool true, r2))
        else if c = 'f' then (stripWord ['a', 'l', 's', 'e'] r).map (fun r2 => (.bool false, r2))
        else if c = '"' then (parseStrAux (r.length + 1) [] r).map (fun p => (.str ⟨p.1⟩, p.2))
        else if c = '[' then
          match skipWs r with
          | [] => none
          | c2 :: r2 =>
            if c2 = ']' then some (.arr [], r2)
            else (parseItems f (c2 :: r2)).map (fun p => (.arr p.1, p.2))
        else if c = '{' then
          match skipWs r with
          | [] => none
          | c2 :: r2 =>
            if c2 = '}' then some (.obj [], r2)
            else (parseFields f (c2 :: r2)).map (fun p => (.obj p.1, p.2))
        else if c = '-' ∨ isDigitChar c then (parseNum (c :: r)).map (fun p => (.num p.1, p.2))
        else none := rfl

/-- One-step unfolding of `parseItems` at successor fuel (definitional). -/
theorem parseItems_succ (f : Nat) (cs : List Char) :
    parseItems (f + 1) cs =
      match parseVal f cs with
      | none => none
      | some (v, r) =>
        match skipWs r with
        | [] => none
        | c :: r2 =>
          if c = ',' then (parseItems f r2).map (fun p => (v :: p.1, p.2))
          else if c = ']' then some ([v], r2)
          else none := rfl

/-- One-step unfolding of `parseFields` at successor fuel (definitional). -/
theorem parseFields_succ (f : Nat) (cs : List Char) :
    parseFields (f + 1) cs =
      match skipWs cs with
      | [] => none
      | c :: r =>
        if c = '"' then
          match parseStrAux (r.length + 1) [] r with
          | none => none
          | some (k, r1) =>
            match skipWs r1 with
            | [] => none
            | c2 :: r2 =>
              if c2 = ':' then
                match parseVal f r2 with
                | none => none
                | some (v, r3) =>
                  match skipWs r3 with
                  | [] => none
                  | c3 :: r4 =>
                    if c3 = ',' then (parseFields f r4).map (fun p => ((⟨k⟩, v) :: p.1, p.2))
                    else if c3 = '}' then some ([(⟨k⟩, v)], r4)
                    else none
              else none
        else none := rfl

/-- `parseVal` ignores a leading space. -/
theorem parseVal_ws (f : Nat) (X : List Char) : parseVal f (' ' :: X) = parseVal f X := by
  cases f <;> rfl

/-- `parseItems` ignores a leading space. -/
theorem parseItems_ws (f : Nat) (X : List Char) : parseItems f (' ' :: X) = parseItems f X := by
  cases f with
  | zero => rfl
  | succ f => rw [parseItems_succ, parseItems_succ, parseVal_ws]

/-- `parseFields` ignores a leading space. -/
theorem parseFields_ws (f : Nat) (X : List Char) : parseFields f (' ' :: X) = parseFields f X := by
  cases f with
  | zero => rfl
  | succ f => rw [parseFields_succ, parseFields_succ]; rfl

mutual

/-- `parseVal` inverts `emit` with the default separators, given enough fuel
and a remainder no number can continue into. -/
theorem rt_val : ∀ (v : JVal) (f : Nat) (rest : List Char),
    jsize v ≤ f → numStop rest = true →
    parseVal f (emit [',', ' '] [':', ' '] v ++ rest) = some (v, rest)
  | .null, f, rest, hs, _ => by
    match f, hs with
    | 0, h => simp [jsize] at h
    | f + 1, _ => rfl
  | .bool true, f, rest, hs, _ => by
    match f, hs with
    | 0, h => simp [jsize] at h
    | f + 1, _ => rfl
  | .bool false, f, rest, hs, _ => by
    match f, hs with
    | 0, h => simp [jsize] at h
    | f + 1, _ => rfl
  | .num n, f, rest, hs, hr => by
    match f, hs with
    | 0, h => simp [jsize] at h
    | f + 1, _ =>
      show parseVal (f + 1) (intChars n ++ rest) = some (.num n, rest)
      by_cases hn : n < 0
      · have harg : intChars n ++ rest = '-' :: (digitsOfSpec n.natAbs ++ rest) := by
          simp [intChars, hn, natDigits_eq]
        rw [harg, parseVal_succ, skipWs_cons, if_neg (by decide)]
        simp +decide only [if_true, if_false]
        rw [← harg, parseNum_intChars n rest hr]
        rfl
      · obtain ⟨c0, t0, h0⟩ : ∃ c0 t0, digitsOfSpec n.natAbs = c0 :: t0 := by
          match hm : digitsOfSpec n.natAbs with
          | [] => exact absurd hm (digitsOfSpec_ne_nil _)
          | c0 :: t0 => exact ⟨c0, t0, rfl⟩
        have hc0 : isDigitChar c0 = true := digitsOfSpec_digits n.natAbs c0 (by rw [h0]; simp)
        have harg : intChars n ++ rest = c0 :: (t0 ++ rest) := by
          simp [intChars, hn, natDigits_eq, h0]
        rw [harg, parseVal_succ, skipWs_cons, if_neg (by simp [digit_not_ws hc0])]
        simp only []
        rw [if_neg (digitChar_ne hc0 (by decide)), if_neg (digitChar_ne hc0 (by decide)),
          if_neg (digitChar_ne hc0 (by decide)), if_neg (digitChar_ne hc0 (by decide)),
          if_neg (digitChar_ne hc0 (by decide)), if_neg (digitChar_ne hc0 (by decide)),
          if_pos (Or.inr hc0)]
        rw [← harg, parseNum_intChars n rest hr]
        rfl
  | .str s, f, rest, hs, _ => by
    match f, hs with
    | 0, h => simp [jsize] at h
    | f + 1, _ =>
      have harg : emit [',', ' '] [':', ' '] (.str s) ++ rest
          = '"' :: (s.toList.flatMap escapeChar ++ '"' :: rest) := by
        simp [emit, renderStr]
      rw [harg, parseVal_succ, skipWs_cons, if_neg (by decide)]
      simp +decide only [if_true, if_false]
      rw [parseStrAux_renderStr s _ rest (by
        have := length_le_flatMap_escapeChar s.toList
        simp only [List.length_append, List.length_cons]
        omega)]
      simp [string_mk_toList]
  | .arr [], f, rest, hs, _ => by
    match f, hs with
    | 0, h => simp [jsize] at h
    | f + 1, _ => rfl
  | .arr (v :: vs), f, rest, hs, _ => by
    match f, hs with
    | 0, h => exact absurd h (by simp [jsize])
    | f + 1, hf =>
      have hsz : jsizeItems (v :: vs) ≤ f := by
        have hj : jsize (.arr (v :: vs)) = 1 + jsizeItems (v :: vs) := rfl
        omega
      obtain ⟨c0, t0, hhead, hws0, hbr0, _⟩ := emitItems_cons_head [',', ' '] [':', ' '] v vs
      have harg : emit [',', ' '] [':', ' '] (.arr (v :: vs)) ++ rest
          = '[' :: (emitItems [',', ' '] [':', ' '] (v :: vs) ++ ']' :: rest) := by
        simp [emit]
      rw [harg, parseVal_succ, skipWs_cons, if_neg (by decide)]
      simp +decide only [if_true, if_false]
      rw [hhead, List.cons_append, skipWs_cons, if_neg (by simp [hws0])]
      simp only []
      rw [if_neg hbr0, ← List.cons_append, ← hhead]
      rw [rt_items (v :: vs) f rest (by simp) hsz]
      rfl
  | .obj [], f, rest, hs, _ => by
    match f, hs with
    | 0, h => simp [jsize] at h
    | f + 1, _ => rfl
  | .obj ((k, v) :: fs), f, rest, hs, _ => by
    match f, hs with
    | 0, h => exact absurd h (by simp [jsize])
    | f + 1, hf =>
      have hsz : jsizeFields ((k, v) :: fs) ≤ f := by
        have hj : jsize (.obj ((k, v) :: fs)) = 1 + jsizeFields ((k, v) :: fs) := rfl
        omega
      obtain ⟨t0, hhead⟩ := emitFields_cons_head [',', ' '] [':', ' '] k v fs
      have harg : emit [',', ' '] [':', ' '] (.obj ((k, v) :: fs)) ++ rest
          = '{' :: (emitFields [',', ' '] [':', ' '] ((k, v) :: fs) ++ '}' :: rest) := by
        simp [emit]
      rw [harg, parseVal_succ, skipWs_cons, if_neg (by decide)]
      simp +decide only [if_true, if_false]
      rw [hhead, List.cons_append, skipWs_cons, if_neg (by decide)]
      simp +decide only [if_true, if_false]
      rw [← List.cons_append, ← hhead]
      rw [rt_fields ((k, v) :: fs) f rest (by simp) hsz]
      rfl

/-- `parseItems` inverts `emitItems` on a nonempty item list. -/
theorem rt_items : ∀ (vs : List JVal) (f : Nat) (rest : List Char),
    vs ≠ [] → jsizeItems vs ≤ f →
    parseItems f (emitItems [',', ' '] [':', ' '] vs ++ ']' :: rest) = some (vs, rest)
  | [], _, _, hne, _ => absurd rfl hne
  | [v], f, rest, _, hs => by
    match f, hs with
    | 0, h => simp only [jsizeItems] at h; omega
    | f + 1, hs =>
      have hv : jsize v ≤ f := by
        simp only [jsizeItems] at hs
        omega
      rw [show emitItems [',', ' '] [':', ' '] [v] = emit [',', ' '] [':', ' '] v from rfl]
      rw [parseItems_succ, rt_val v f (']' :: rest) hv rfl]
      simp only []
      rw [skipWs_cons, if_neg (by decide)]
      simp +decide only [if_true, if_false]
  | v :: w :: ws, f, rest, _, hs => by
    match f, hs with
    | 0, h => simp only [jsizeItems] at h; omega
    | f + 1, hs =>
      have hv : jsize v ≤ f := by
        simp only [jsizeItems] at hs
        omega
      have htail : jsizeItems (w :: ws) ≤ f := by
        simp only [jsizeItems] at hs ⊢
        omega
      have harg : emitItems [',', ' '] [':', ' '] (v :: w :: ws) ++ ']' :: rest
          = emit [',', ' '] [':', ' '] v
            ++ (',' :: ' ' :: (emitItems [',', ' '] [':', ' '] (w :: ws) ++ ']' :: rest)) := by
        simp [emitItems]
      rw [harg, parseItems_succ,
        rt_val v f (',' :: ' ' :: (emitItems [',', ' '] [':', ' '] (w :: ws) ++ ']' :: rest))
          hv rfl]
      simp only []
      rw [skipWs_cons, if_neg (by decide)]
      simp +decide only [if_true, if_false]
      rw [parseItems_ws]
      rw [rt_items (w :: ws) f rest (by simp) htail]
      rfl

/-- `parseFields` inverts `emitFields` on a nonempty member list. -/
theorem rt_fields : ∀ (fs : List (String × JVal)) (f : Nat) (rest : List Char),
    fs ≠ [] → jsizeFields fs ≤ f →
    parseFields f (emitFields [',', ' '] [':', ' '] fs ++ '}' :: rest) = some (fs, rest)
  | [], _, _, hne, _ => absurd rfl hne
  | [(k, v)], f, rest, _, hs => by
    match f, hs with
    | 0, h => simp only [jsizeFields] at h; omega
    | f + 1, hs =>
      have hv : jsize v ≤ f := by
        simp only [jsizeFields] at hs
        omega
      have harg : emitFields [',', ' '] [':', ' '] [(k, v)] ++ '}' :: rest
          = '"' :: (k.toList.flatMap escapeChar
            ++ '"' :: (':' :: ' ' :: (emit [',', ' '] [':', ' '] v ++ '}' :: rest))) := by
        simp [emitFields, renderStr]
      rw [harg, parseFields_succ, skipWs_cons, if_neg (by decide)]
      simp +decide only [if_true, if_false]
      rw [parseStrAux_renderStr k _ _ (by
        have := length_le_flatMap_escapeChar k.toList
        simp only [List.length_append, List.length_cons]
        omega)]
      simp only []
      rw [skipWs_cons, if_neg (by decide)]
      simp +decide only [if_true, if_false]
      rw [parseVal_ws, rt_val v f ('}' :: rest) hv rfl]
      simp only []
      rw [skipWs_cons, if_neg (by decide)]
      simp +decide only [if_true, if_false]
      simp [string_mk_toList]
  | (k, v) :: g :: gs, f, rest, _, hs => by
    match f, hs with
    | 0, h => simp only [jsizeFields] at h; omega
    | f + 1, hs =>
      have hv : jsize v ≤ f := by
        simp only [jsizeFields] at hs
        omega
      have htail : jsizeFields (g :: gs) ≤ f := by
        match g, hs with
        | (k2, v2), hs =>
          simp only [jsizeFields] at hs ⊢
          omega
      have harg : emitFields [',', ' '] [':', ' '] ((k, v) :: g :: gs) ++ '}' :: rest
          = '"' :: (k.toList.flatMap escapeChar
            ++ '"' :: (':' :: ' ' :: (emit [',', ' '] [':', ' '] v
              ++ (',' :: ' ' :: (emitFields [',', ' '] [':', ' '] (g :: gs) ++ '}' :: rest))))) := by
        simp [emitFields, renderStr]
      rw [harg, parseFields_succ, skipWs_cons, if_neg (by decide)]
      simp +decide only [if_true, if_false]
      rw [parseStrAux_renderStr k _ _ (by
        have := length_le_flatMap_escapeChar k.toList
        simp only [List.length_append, List.length_cons]
        omega)]
      simp only []
      rw [skipWs_cons, if_neg (by decide)]
      simp +decide only [if_true, if_false]
      rw [parseVal_ws,
        rt_val v f (',' :: ' ' :: (emitFields [',', ' '] [':', ' '] (g :: gs) ++ '}' :: rest))
          hv rfl]
      simp only []
      rw [skipWs_cons, if_neg (by decide)]
      simp +decide only [if_true, if_false]
      rw [parseFields_ws]
      rw [rt_fields (g :: gs) f rest (by simp) htail]
      simp [string_mk_toList]

end

mutual

/-- A value's fuel need is bounded by its rendering's length (nonempty item
separator). -/
theorem jsize_le_emit : ∀ (v : JVal) (isep ksep : List Char), 1 ≤ isep.length →
    jsize v ≤ (emit isep ksep v).length
  | .null, _, _, _ => by simp [jsize, emit]
  | .bool b, _, _, _ => by cases b <;> simp [jsize, emit]
  | .num n, isep, ksep, _ => by
    show jsize (.num n) ≤ (intChars n).length
    have hne := digitsOfSpec_ne_nil n.natAbs
    have hlen : 1 ≤ (digitsOfSpec n.natAbs).length := by
      cases hd : digitsOfSpec n.natAbs with
      | nil => exact absurd hd hne
      | cons c t => simp
    simp only [jsize, intChars, natDigits_eq, List.append_nil, List.length_append]
    by_cases hn : n < 0 <;> simp [hn] <;> omega
  | .str s, isep, ksep, _ => by
    simp [jsize, emit, renderStr]
  | .arr items, isep, ksep, h => by
    have hi := jsizeItems_le_emit items isep ksep h
    simp only [jsize, emit, List.length_cons, List.length_append]
    simp only [List.length_cons, List.length_nil] at hi ⊢
    omega
  | .obj fields, isep, ksep, h => by
    have hi := jsizeFields_le_emit fields isep ksep h
    simp only [jsize, emit, List.length_cons, List.length_append]
    simp only [List.length_cons, List.length_nil] at hi ⊢
    omega

/-- The item-list fuel bound. -/
theorem jsizeItems_le_emit : ∀ (vs : List JVal) (isep ksep : List Char), 1 ≤ isep.length →
    jsizeItems vs ≤ (emitItems isep ksep vs).length + 1
  | [], _, _, _ => by simp [jsizeItems]
  | [v], isep, ksep, h => by
    have h1 := jsize_le_emit v isep ksep h
    simp only [jsizeItems, emitItems]
    omega
  | v :: w :: ws, isep, ksep, h => by
    have h1 := jsize_le_emit v isep ksep h
    have h2 := jsizeItems_le_emit (w :: ws) isep ksep h
    simp only [jsizeItems, emitItems, List.length_append] at h2 ⊢
    omega

/-- The member-list fuel bound. -/
theorem jsizeFields_le_emit : ∀ (fs : List (String × JVal)) (isep ksep : List Char),
    1 ≤ isep.length → jsizeFields fs ≤ (emitFields isep ksep fs).length + 1
  | [], _, _, _ => by simp [jsizeFields]
  | [(k, v)], isep, ksep, h => by
    have h1 := jsize_le_emit v isep ksep h
    simp only [jsizeFields, emitFields, List.length_append]
    omega
  | (k, v) :: g :: gs, isep, ksep, h => by
    have h1 := jsize_le_emit v isep ksep h
    have h2 := jsizeFields_le_emit (g :: gs) isep ksep h
    simp only [jsizeFields, emitFields, List.length_append] at h2 ⊢
    omega

end

/-- The serializer/parser round trip: `json.loads` inverts `json.dumps`. -/
theorem loads_dumps (v : JVal) : loads (dumps v) = some v := by
  have hb : jsize v ≤ (emit [',', ' '] [':', ' '] v).length + 1 := by
    have := jsize_le_emit v [',', ' '] [':', ' '] (by simp)
    omega
  have h1 : parseVal ((emit [',', ' '] [':', ' '] v).length + 1)
      (emit [',', ' '] [':', ' '] v ++ []) = some (v, []) := rt_val v _ [] hb rfl
  rw [List.append_nil] at h1
  simp only [loads, dumps]
  rw [show String.toList ⟨emit [',', ' '] [':', ' '] v⟩ = emit [',', ' '] [':', ' '] v from rfl]
  rw [h1]
  rfl

end PyJson

example : PyJson.loads "\x7b\"a\": [1, -2, \"x\"], \"b\": null\x7d " =
    some (.obj [("a", .arr [.num 1, .num (-2), .str "x"]), ("b", .null)]) := by decide

example : PyJson.loads "x" = none := by decide

example : PyJson.loads "\x7b\"a\":" = none := by decide

namespace Sha256

/-! ## `hashlib.sha256(...).hexdigest()`

FIPS 180-4 SHA-256 over a byte list, fully executable: 32-bit words are `Nat`
values kept below `2^32` by explicit reduction (`w32`), and every loop is
structural recursion so the kernel can evaluate a digest. -/

/-- Reduce to a 32-bit word. -/
def w32 (n : Nat) : Nat := n % 4294967296

/-- Right-rotation of a 32-bit word by `n` bits. -/
def rotr (x n : Nat) : Nat := w32 ((x >>> n) ||| (x <<< (32 - n)))

/-- The 64 round constants. -/
def K : List Nat :=
  [1116352408, 1899447441, 3049323471, 3921009573, 961987163, 1508970993,
   2453635748, 2870763221, 3624381080, 310598401, 607225278, 1426881987,
   1925078388, 2162078206, 2614888103, 3248222580, 3835390401, 4022224774,
   264347078, 604807628, 770255983, 1249150122, 1555081692, 1996064986,
   2554220882, 2821834349, 2952996808, 3210313671, 3336571891, 3584528711,
   113926993, 338241895, 666307205, 773529912, 1294757372, 1396182291,
   1695183700, 1986661051, 2177026350, 2456956037, 2730485921, 2820302411,
   3259730800, 3345764771, 3516065817, 3600352804, 4094571909, 275423344,
   430227734, 506948616, 659060556, 883997877, 958139571, 1322822218,
   1537002063, 1747873779, 1955562222, 2024104815, 2227730452, 2361852424,
   2428436474, 2756734187, 3204031479, 3329325298]

/-- The initial hash state. -/
def H0 : List Nat :=
  [1779033703, 3144134277, 1013904242, 2773480762,
   1359893119, 2600822924, 528734635, 1541459225]

/-- Σ0 of the compression function. -/
def bigSigma0 (x : Nat) : Nat := rotr x 2 ^^^ rotr x 13 ^^^ rotr x 22

/-- Σ1 of the compression function. -/
def bigSigma1 (x : Nat) : Nat := rotr x 6 ^^^ rotr x 11 ^^^ rotr x 25

/-- σ0 of the message schedule. -/
def smallSigma0 (x : Nat) : Nat := rotr x 7 ^^^ rotr x 18 ^^^ (x >>> 3)

/-- σ1 of the message schedule. -/
def smallSigma1 (x : Nat) : Nat := rotr x 17 ^^^ rotr x 19 ^^^ (x >>> 10)

/-- The `Ch` function (the complement is XOR with the all-ones word). -/
def ch (x y z : Nat) : Nat := (x &&& y) ^^^ ((x ^^^ 0xffffffff) &&& z)

/-- The `Maj` function. -/
def maj (x y z : Nat) : Nat := (x &&& y) ^^^ (x &&& z) ^^^ (y &&& z)

/-- Big-endian 8-byte encoding of a (bit-)length. -/
def be64 (n : Nat) : List Nat :=
  [n / 72057594037927936 % 256, n / 281474976710656 % 256, n / 1099511627776 % 256,
   n / 4294967296 % 256, n / 16777216 % 256, n / 65536 % 256, n / 256 % 256, n % 256]

/-- SHA-256 padding: `0x80`, zeros to 56 mod 64, then the bit length. -/
def padBytes (msg : List Nat) : List Nat :=
  let len := msg.length
  let zeros := (64 + 56 - ((len + 1) % 64)) % 64
  msg ++ [0x80] ++ List.replicate zeros 0 ++ be64 (8 * len)

/-- Big-endian 32-bit words from a byte list (length a multiple of 4). -/
def bytesToWords : List Nat → List Nat
  | b0 :: b1 :: b2 :: b3 :: rest => (((b0 * 256 + b1) * 256 + b2) * 256 + b3) :: bytesToWords rest
  | _ => []

/-- Split a word list into 16-word blocks; `fuel ≥ length` makes it total
by structural recursion. -/
def blocksGo (fuel : Nat) (ws : List Nat) : List (List Nat) :=
  match fuel with
  | 0 => []
  | fuel + 1 =>
    match ws with
    | [] => []
    | _ => ws.take 16 :: blocksGo fuel (ws.drop 16)

/-- One message-schedule extension step: append word `n` computed from words
`n-2`, `n-7`, `n-15`, `n-16`. -/
def scheduleStep (w : List Nat) : List Nat :=
  let n := w.length
  w ++ [w32 (smallSigma1 (w.getD (n - 2) 0) + w.getD (n - 7) 0 +
             smallSigma0 (w.getD (n - 15) 0) + w.getD (n - 16) 0)]

/-- One compression round on the 8-word working state. -/
def round (s : List Nat) (k w : Nat) : List Nat :=
  match s with
  | [a, b, c, d, e, f, g, h] =>
    let t1 := w32 (h + bigSigma1 e + ch e f g + k + w)
    let t2 := w32 (bigSigma0 a + maj a b c)
    [w32 (t1 + t2), a, b, c, w32 (d + t1), e, f, g]
  | s => s

/-- Compress one 16-word block into the hash state. -/
def compressBlock (h : List Nat) (block : List Nat) : List Nat :=
  let w := Nat.iterate scheduleStep 48 block
  let out := (List.zip K w).foldl (fun s kw => round s kw.1 kw.2) h
  List.zipWith (fun x y => w32 (x + y)) h out

/-- The eight final state words for a byte-list message. -/
def sha256Words (msg : List Nat) : List Nat :=
  let ws := bytesToWords (padBytes msg)
  (blocksGo (ws.length + 1) ws).foldl compressBlock H0

/-- Eight lowercase hex digits of a 32-bit word. -/
def wordHex (w : Nat) : List Char :=
  [PyJson.toHexChar (w / 268435456 % 16), PyJson.toHexChar (w / 16777216 % 16),
   PyJson.toHexChar (w / 1048576 % 16), PyJson.toHexChar (w / 65536 % 16),
   PyJson.toHexChar (w / 4096 % 16), PyJson.toHexChar (w / 256 % 16),
   PyJson.toHexChar (w / 16 % 16), PyJson.toHexChar (w % 16)]

/-- `hashlib.sha256(bytes).hexdigest()`. -/
def hexdigest (msg : List Nat) : String :=
  ⟨(sha256Words msg).flatMap wordHex⟩

/-- UTF-8 bytes of one character. -/
def utf8Bytes (c : Char) : List Nat :=
  let n := c.toNat
  if n < 0x80 then [n]
  else if n < 0x800 then [0xc0 + n / 0x40, 0x80 + n % 0x40]
  else if n < 0x10000 then [0xe0 + n / 0x1000, 0x80 + n / 0x40 % 0x40, 0x80 + n % 0x40]
  else [0xf0 + n / 0x40000, 0x80 + n / 0x1000 % 0x40, 0x80 + n / 0x40 % 0x40, 0x80 + n % 0x40]

/-- `str.encode()`: the UTF-8 bytes of a string. -/
def strBytes (s : String) : List Nat := s.toList.flatMap utf8Bytes

end Sha256

example : Sha256.hexdigest (Sha256.strBytes "abc") =
    "ba7816bf8f01cfea414140de5dae2223b00361a396177a9cb410ff61f20015ad" := by decide

example : Sha256.hexdigest [] =
    "e3b0c44298fc1c149afbf4c8996fb92427ae41e4649b934ca495991b7852b855" := by decide

namespace SQLiteCache

/-! ## `SQLiteCache` (cache.py)

The `cache` table is a list of rows; `_init_db` recreates it empty, so the
initial state is `[]`.  Each method becomes a pure function taking the
current time (`int(time.time())`) and the table, returning what the SQL
statements leave behind.  The surrogate `id` column is never consulted by
any query, so rows carry only `key`, `created_at` and `data`. -/

/-- One row of the `cache` table: unique key, insertion timestamp, stored
JSON text. -/
structure CacheRow where
  key : String
  created_at : Int
  data : String
deriving DecidableEq, Repr

/-- The table contents, in rowid order. -/
abbrev CacheDB := List CacheRow

/-- `DEFAULT_MAX_AGE = 7200` (2 hours), in seconds. -/
def DEFAULT_MAX_AGE : Int := 7200

/-- `_make_key`: the SHA-256 hex digest of the namespace concatenated (with
no separator) with `json.dumps(params, sort_keys=True, separators=(",", ":"))`,
or with the empty string when `params` is `None`. -/
def _make_key (tool : String) (params : Option (List (String × JVal))) : String :=
  let params_str :=
    match params with
    | none => ""
    | some p => PyJson.dumpsCanonical (JVal.obj p)
  Sha256.hexdigest (Sha256.strBytes (tool ++ params_str))

/-- `_cleanup`: `DELETE FROM cache WHERE created_at < now - DEFAULT_MAX_AGE`
keeps exactly the rows with `now - DEFAULT_MAX_AGE ≤ created_at`. -/
def _cleanup (now : Int) (db : CacheDB) : CacheDB :=
  db.filter (fun r => decide (now - DEFAULT_MAX_AGE ≤ r.created_at))

/-- `get`: run the expiry sweep, then `SELECT data FROM cache WHERE key = ?`
(`fetchone` returns the first row in rowid order) and `json.loads` it; a
missing row or a `JSONDecodeError` gives `None`.  Returns the result together
with the table the sweep left behind. -/
def get (now : Int) (tool : String) (params : Option (List (String × JVal)))
    (db : CacheDB) : Option JVal × CacheDB :=
  let db1 := _cleanup now db
  let key := _make_key tool params
  match db1.find? (fun r => r.key == key) with
  | some row => (PyJson.loads row.data, db1)
  | none => (none, db1)

/-- `set`: `INSERT ... ON CONFLICT(key) DO UPDATE` — replace `created_at` and
`data` in place when the key exists, append a fresh row otherwise. -/
def set (now : Int) (tool : String) (params : Option (List (String × JVal)))
    (data : JVal) (db : CacheDB) : CacheDB :=
  let key := _make_key tool params
  let data_json := PyJson.dumps data
  if db.any (fun r => r.key == key) then
    db.map (fun r =>
      if r.key == key then { r with created_at := now, data := data_json } else r)
  else
    db ++ [{ key := key, created_at := now, data := data_json }]

/-- Every row `set` leaves under the written key carries the fresh timestamp
and the serialized payload. -/
theorem set_rows_at_key {now : Int} {tool : String}
    {params : Option (List (String × JVal))} {payload : JVal} {db : CacheDB}
    {r : CacheRow} (hr : r ∈ set now tool params payload db)
    (hk : r.key = _make_key tool params) :
    r.created_at = now ∧ r.data = PyJson.dumps payload := by
  simp only [set] at hr
  split at hr
  · obtain ⟨r0, hr0, hfr⟩ := List.mem_map.mp hr
    by_cases h0 : r0.key == _make_key tool params
    · rw [if_pos h0] at hfr
      subst hfr
      exact ⟨rfl, rfl⟩
    · rw [if_neg h0] at hfr
      subst hfr
      exact absurd (by simp [hk]) h0
  · rename_i hany
    rw [List.mem_append] at hr
    rcases hr with hr | hr
    · have hfalse : db.any (fun r => r.key == _make_key tool params) = false := by
        revert hany
        cases db.any (fun r => r.key == _make_key tool params) <;> simp
      have hne := List.any_eq_false.mp hfalse r hr
      simp [hk] at hne
    · simp at hr
      subst hr
      exact ⟨rfl, rfl⟩

end SQLiteCache

namespace PyJson

/-- `deepSortFields` is a map over the member values. -/
theorem deepSortFields_eq_map (fs : List (String × JVal)) :
    deepSortFields fs = fs.map (fun kv => (kv.1, deepSort kv.2)) := by
  induction fs with
  | nil => rfl
  | cons kv t ih =>
    obtain ⟨k, v⟩ := kv
    simp [deepSortFields, ih]

/-- `deepSortFields` keeps the keys (in order). -/
theorem deepSortFields_keys (fs : List (String × JVal)) :
    (deepSortFields fs).map Prod.fst = fs.map Prod.fst := by
  rw [deepSortFields_eq_map, List.map_map]
  rfl

/-- Two key-sorted member lists that are permutations of one another, with
distinct keys, are equal: the key order is total, and ties are impossible. -/
theorem sorted_keyLe_nodup_eq : ∀ (l1 l2 : List (String × JVal)), l1.Perm l2 →
    l1.Sorted keyLe → l2.Sorted keyLe → (l1.map Prod.fst).Nodup → l1 = l2
  | [], l2, hp, _, _, _ => (List.Perm.eq_nil hp.symm).symm
  | a :: t1, l2, hp, hs1, hs2, hnd => by
    match l2 with
    | [] => simp at hp
    | b :: t2 =>
      have hab : a = b := by
        have ha2 : a ∈ b :: t2 := hp.subset (List.mem_cons_self _ _)
        have hb1 : b ∈ a :: t1 := hp.symm.subset (List.mem_cons_self _ _)
        rcases List.mem_cons.mp ha2 with h | ha2t
        · exact h
        rcases List.mem_cons.mp hb1 with h | hb1t
        · exact h.symm
        have h1 : keyLe a b := (List.sorted_cons.mp hs1).1 b hb1t
        have h2 : keyLe b a := (List.sorted_cons.mp hs2).1 a ha2t
        have hkey : a.1 = b.1 := keyLe_antisymm_key h1 h2
        exfalso
        have hmem : a.1 ∈ t1.map Prod.fst := by
          rw [hkey]
          exact List.mem_map.mpr ⟨b, hb1t, rfl⟩
        have hnd2 : (a.1 :: t1.map Prod.fst).Nodup := by simpa using hnd
        exact (List.nodup_cons.mp hnd2).1 hmem
      subst hab
      have htail := sorted_keyLe_nodup_eq t1 t2 hp.cons_inv (List.sorted_cons.mp hs1).2
        (List.sorted_cons.mp hs2).2
        (by
          have hnd2 : (a.1 :: t1.map Prod.fst).Nodup := by simpa using hnd
          exact (List.nodup_cons.mp hnd2).2)
      rw [htail]

/-- Sorting the members of two permuted maps with distinct keys agrees. -/
theorem insertionSort_perm_nodup_eq (p1 p2 : List (String × JVal))
    (hperm : p1.Perm p2) (hnd : (p1.map Prod.fst).Nodup) :
    List.insertionSort keyLe (deepSortFields p1)
      = List.insertionSort keyLe (deepSortFields p2) := by
  have hdperm : (deepSortFields p1).Perm (deepSortFields p2) := by
    rw [deepSortFields_eq_map, deepSortFields_eq_map]
    exact hperm.map _
  have hsortperm : (List.insertionSort keyLe (deepSortFields p1)).Perm
      (List.insertionSort keyLe (deepSortFields p2)) :=
    (List.perm_insertionSort keyLe (deepSortFields p1)).trans
      (hdperm.trans (List.perm_insertionSort keyLe (deepSortFields p2)).symm)
  apply sorted_keyLe_nodup_eq _ _ hsortperm
      (List.sorted_insertionSort keyLe (deepSortFields p1))
      (List.sorted_insertionSort keyLe (deepSortFields p2))
  have hkeysperm : ((List.insertionSort keyLe (deepSortFields p1)).map Prod.fst).Perm
      ((deepSortFields p1).map Prod.fst) :=
    (List.perm_insertionSort keyLe (deepSortFields p1)).map _
  rw [deepSortFields_keys] at hkeysperm
  exact hkeysperm.nodup_iff.mpr hnd

end PyJson

namespace SQLiteCache

/-- `get` always leaves exactly the swept table behind. -/
theorem get_snd (now : Int) (tool : String) (params : Option (List (String × JVal)))
    (db : CacheDB) : (get now tool params db).2 = _cleanup now db := by
  simp only [get]
  split <;> rfl

/-- `set` always leaves a row under the written key, with the fresh timestamp
and the serialized payload. -/
theorem set_mem_key (now : Int) (tool : String) (params : Option (List (String × JVal)))
    (payload : JVal) (db : CacheDB) :
    ∃ r ∈ set now tool params payload db, r.key = _make_key tool params ∧
      r.created_at = now ∧ r.data = PyJson.dumps payload := by
  simp only [set]
  split
  · rename_i hany
    obtain ⟨r0, hr0, hp⟩ := List.any_eq_true.mp hany
    refine ⟨{ r0 with created_at := now, data := PyJson.dumps payload },
      List.mem_map.mpr ⟨r0, hr0, by rw [if_pos hp]⟩, ?_, rfl, rfl⟩
    simpa using hp
  · exact ⟨{ key := _make_key tool params, created_at := now, data := PyJson.dumps payload },
      by simp, rfl, rfl, rfl⟩

/-- C1: after `set(namespace, params, payload)`, a `get(namespace, params)`
whose sweep cutoff does not pass the write time returns exactly the stored
payload — whatever the prior table contents. -/
theorem set_get_roundtrip (db : CacheDB) (tool : String)
    (params : Option (List (String × JVal))) (payload : JVal) (now now2 : Int)
    (h : now2 - DEFAULT_MAX_AGE ≤ now) :
    (get now2 tool params (set now tool params payload db)).1 = some payload := by
  obtain ⟨r, hr, hrk, hrc, hrd⟩ := set_mem_key now tool params payload db
  have hrclean : r ∈ _cleanup now2 (set now tool params payload db) :=
    List.mem_filter.mpr ⟨hr, by simp only [decide_eq_true_eq]; omega⟩
  have hsome : ((_cleanup now2 (set now tool params payload db)).find?
      (fun q => q.key == _make_key tool params)).isSome := by
    rw [List.find?_isSome]
    exact ⟨r, hrclean, by simp [hrk]⟩
  obtain ⟨row, hrow⟩ := Option.isSome_iff_exists.mp hsome
  have hmem : row ∈ _cleanup now2 (set now tool params payload db) :=
    List.mem_of_find?_eq_some hrow
  have hpk : row.key = _make_key tool params := by simpa using List.find?_some hrow
  have hrowin : row ∈ set now tool params payload db := (List.mem_filter.mp hmem).1
  have hdata := (set_rows_at_key hrowin hpk).2
  simp only [get]
  rw [hrow]
  simp [hdata, PyJson.loads_dumps]

/-- C2: a row older than `now - DEFAULT_MAX_AGE` is removed by the sweep a
`get` begins with, and when every row under the looked-up key is that old the
`get` returns nothing. -/
theorem get_never_returns_expired (db : CacheDB) (tool : String)
    (params : Option (List (String × JVal))) (now : Int) (r : CacheRow)
    (hmem : r ∈ db) (hexp : r.created_at < now - DEFAULT_MAX_AGE) :
    r ∉ (get now tool params db).2 ∧
      ((∀ q ∈ db, q.key = _make_key tool params → q.created_at < now - DEFAULT_MAX_AGE) →
        (get now tool params db).1 = none) := by
  constructor
  · rw [get_snd]
    intro hin
    have h2 := (List.mem_filter.mp hin).2
    simp only [decide_eq_true_eq] at h2
    omega
  · intro hall
    have hnone : (_cleanup now db).find? (fun q => q.key == _make_key tool params) = none := by
      rw [List.find?_eq_none]
      intro q hq hpq
      have hq1 := (List.mem_filter.mp hq).1
      have hq2 := (List.mem_filter.mp hq).2
      simp only [decide_eq_true_eq] at hq2
      have hkeq : q.key = _make_key tool params := by simpa using hpq
      have := hall q hq1 hkeq
      omega
    simp only [get]
    rw [hnone]

/-- Distinct keys identify rows. -/
theorem nodup_keys_unique : ∀ {db : CacheDB}, (db.map CacheRow.key).Nodup →
    ∀ {r q : CacheRow}, r ∈ db → q ∈ db → r.key = q.key → r = q := by
  intro db
  induction db with
  | nil => intro _ r q hr; simp at hr
  | cons a t ih =>
    intro hnd r q hr hq hk
    have hnd2 : (a.key :: t.map CacheRow.key).Nodup := by simpa using hnd
    obtain ⟨hnotin, hndt⟩ := List.nodup_cons.mp hnd2
    rcases List.mem_cons.mp hr with hr1 | hr1 <;> rcases List.mem_cons.mp hq with hq1 | hq1
    · rw [hr1, hq1]
    · exfalso
      apply hnotin
      have hqk : q.key ∈ t.map CacheRow.key := List.mem_map.mpr ⟨q, hq1, rfl⟩
      rw [← hk, hr1] at hqk
      exact hqk
    · exfalso
      apply hnotin
      have hrk : r.key ∈ t.map CacheRow.key := List.mem_map.mpr ⟨r, hr1, rfl⟩
      rw [hk, hq1] at hrk
      exact hrk
    · exact ih hndt hr1 hq1 hk

/-- C8: a fresh row whose stored text does not deserialize makes the lookup a
miss (`None`, not an error), and the row itself survives the sweep. -/
theorem corrupt_payload_is_miss (db : CacheDB) (tool : String)
    (params : Option (List (String × JVal))) (now : Int) (r : CacheRow)
    (hmem : r ∈ db) (hk : r.key = _make_key tool params)
    (hbad : PyJson.loads r.data = none)
    (hfresh : now - DEFAULT_MAX_AGE ≤ r.created_at)
    (hnd : (db.map CacheRow.key).Nodup) :
    (get now tool params db).1 = none ∧ r ∈ (get now tool params db).2 := by
  have hrclean : r ∈ _cleanup now db :=
    List.mem_filter.mpr ⟨hmem, by simp only [decide_eq_true_eq]; omega⟩
  refine ⟨?_, by rw [get_snd]; exact hrclean⟩
  simp only [get]
  rcases hfind : (_cleanup now db).find? (fun q => q.key == _make_key tool params) with _ | row
  · rw [hfind]
  · have hrow_mem : row ∈ _cleanup now db := List.mem_of_find?_eq_some hfind
    have hrow_key : row.key = _make_key tool params := by simpa using List.find?_some hfind
    have hreq : row = r :=
      nodup_keys_unique hnd ((List.mem_filter.mp hrow_mem).1) hmem (by rw [hrow_key, hk])
    rw [hfind, hreq]
    simpa using hbad

/-- C4: `_make_key` does not depend on the insertion order of the parameter
mapping: permuted members with distinct keys hash identically. -/
theorem make_key_order_invariant (tool : String) (p1 p2 : List (String × JVal))
    (hperm : p1.Perm p2) (hnd : (p1.map Prod.fst).Nodup) :
    _make_key tool (some p1) = _make_key tool (some p2) := by
  simp only [_make_key, PyJson.dumpsCanonical, PyJson.deepSort]
  rw [PyJson.insertionSort_perm_nodup_eq p1 p2 hperm hnd]

/-- C10: the namespace and the canonical parameter string are concatenated
with no separator, so `(n, p)` and `(n ++ dumpsCanonical(p), None)` — two
different logical requests — always produce the same cache key. -/
theorem make_key_concat_collision (tool : String) (p : List (String × JVal)) :
    _make_key tool (some p)
      = _make_key (tool ++ PyJson.dumpsCanonical (JVal.obj p)) none ∧
    (tool, some p) ≠ (tool ++ PyJson.dumpsCanonical (JVal.obj p),
      (none : Option (List (String × JVal)))) := by
  constructor
  · simp only [_make_key]
    rw [String.append_empty]
  · intro h
    have := congrArg Prod.snd h
    simp at this

end SQLiteCache

namespace GoogleSearchTool

/-! ## `GoogleSearchTool` (GoogleSearch.py)

`async_call` becomes a pure function of everything the Python coroutine
reads: the merged configuration, the query, the network's answer to the one
HTTP GET the handler may issue (or the exception the `try` block caught),
the current time, and the cache table.  `html.unescape` — a pure,
table-driven CPython function over thousands of named entities — is taken as
a parameter rather than transcribed.  Exception messages on the paths where
CPython would raise inside the `try` (a non-dict truthy cached value, a
non-string snippet, a non-list `items`) are modelled loosely: no claim
depends on their text, only on the `error` envelope shape. -/

/-- The answer to the single `session.get` — an HTTP status with parsed JSON
body, or the message of the exception the `try` block caught. -/
inductive NetResult where
  | http (status : Nat) (body : JVal)
  | exc (msg : String)
deriving DecidableEq, Repr

/-- What `async_call` reads from configuration: the two credential values
(`None` when absent) and `CONF_BRAVE_NUM_RESULTS` after `int(...)`,
defaulting to 2. -/
structure ToolConfig where
  google_api_key : Option String
  google_cx : Option String
  num_results : Int := 2
deriving DecidableEq, Repr

/-- The `response_instruction` string, verbatim (a triple-quoted literal:
leading newline and four-space indents included). -/
def response_instruction : String :=
  "\n    Review the results to provide the user with a clear and concise answer to their query.\n    If the search results provided do not answer the user request, advise the user of this.\n    You may offer to perform related searches for the user, and if confirmed, search new queries to continue assisting the user.\n    Your response must be in plain-text, without the use of any formatting, and should be kept to 2-3 sentences.\n    "

/-- `d[k] = v` on a Python dict: replace in place, or append at the end. -/
def set_field (fs : List (String × JVal)) (k : String) (v : JVal) :
    List (String × JVal) :=
  if fs.any (fun kv => kv.1 == k) then
    fs.map (fun kv => if kv.1 == k then (kv.1, v) else kv)
  else fs ++ [(k, v)]

/-- `wrap_response`: set `response["instruction"]` and return the dict. -/
def wrap_response (fs : List (String × JVal)) : List (String × JVal) :=
  set_field fs "instruction" (JVal.str response_instruction)

/-- `d.get(k)` on a Python dict. -/
def dict_get? (fs : List (String × JVal)) (k : String) : Option JVal :=
  (fs.find? (fun kv => kv.1 == k)).map Prod.snd

/-- `d.get(k, default)` on a Python dict. -/
def dict_get (fs : List (String × JVal)) (k : String) (dflt : JVal) : JVal :=
  match dict_get? fs k with
  | some v => v
  | none => dflt

/-- Field lookup on a JSON value that is an object. -/
def jGet (v : JVal) (k : String) : Option JVal :=
  match v with
  | .obj fs => dict_get? fs k
  | _ => none

/-- Python truthiness of a JSON value. -/
def jTruthy : JVal → Bool
  | .null => false
  | .bool b => b
  | .num n => decide (n ≠ 0)
  | .str s => decide (s ≠ "")
  | .arr items => decide (items ≠ [])
  | .obj fields => decide (fields ≠ [])

/-- Truthiness of `cached_response` (`None` on a miss is falsy). -/
def optTruthy : Option JVal → Bool
  | none => false
  | some v => jTruthy v

/-- Falsiness of a config string under `if not value`: absent or empty. -/
def strFalsy : Option String → Bool
  | none => true
  | some s => s == ""

/-- `re.sub(r"<[^>]+>", "", text)`: delete every leftmost-shortest group
`<...>` with at least one character inside.  `fuel` only bounds the scan
(the input length is enough: every step consumes at least one character);
it keeps the recursion structural so the kernel can evaluate it. -/
def stripTagsGo (fuel : Nat) (cs : List Char) : List Char :=
  match fuel with
  | 0 => cs
  | fuel + 1 =>
    match cs with
    | [] => []
    | c :: rest =>
      if c = '<' then
        match rest.dropWhile (fun d => !(d == '>')) with
        | '>' :: rest2 =>
          if (rest.takeWhile (fun d => !(d == '>'))).isEmpty then '<' :: stripTagsGo fuel rest
          else stripTagsGo fuel rest2
        | _ => '<' :: stripTagsGo fuel rest
      else c :: stripTagsGo fuel rest

/-- The tag-stripping pass of `cleanup_text`. -/
def stripTags (cs : List Char) : List Char := stripTagsGo cs.length cs

/-- Python's `\\s` on the text the tool cleans (the ASCII whitespace class;
search-result text is ASCII-escaped JSON). -/
def isPySpace (c : Char) : Bool :=
  c == ' ' || c == '\t' || c == '\n' || c == '\r' || c == Char.ofNat 11 || c == Char.ofNat 12

/-- `re.sub(r"\\s+", " ", text)`: every maximal whitespace run becomes one
space (all but the run's last character are dropped; the last becomes a
space). -/
def collapseWs : List Char → List Char
  | [] => []
  | c :: rest =>
    if isPySpace c then
      match rest with
      | d :: _ => if isPySpace d then collapseWs rest else ' ' :: collapseWs rest
      | [] => [' ']
    else c :: collapseWs rest

/-- `str.strip()`: drop whitespace from both ends. -/
def pyStrip (cs : List Char) : List Char :=
  ((cs.dropWhile isPySpace).reverse.dropWhile isPySpace).reverse

/-- `cleanup_text`: `html.unescape` (the `unescape` parameter), then tag
stripping, whitespace collapsing, and `strip()`. -/
def cleanup_text (unescape : String → String) (text : String) : String :=
  ⟨pyStrip (collapseWs (stripTags (unescape text).toList))⟩

/-- `item.get("snippet") or item.get("htmlSnippet", "")`: Python `or` takes
the second operand when the first is missing or falsy. -/
def snippet_of (item : List (String × JVal)) : JVal :=
  match dict_get? item "snippet" with
  | some v => if jTruthy v then v else dict_get item "htmlSnippet" (JVal.str "")
  | none => dict_get item "htmlSnippet" (JVal.str "")

/-- One normalized result `\x7b"title", "description"\x7d`; an item that is no
dict, or a snippet that is no string, raises in the loop (caught by the
`except`). -/
def extract_item (unescape : String → String) : JVal → Except String JVal
  | .obj item =>
    match snippet_of item with
    | .str sn =>
      .ok (.obj [("title", dict_get item "title" (JVal.str "")),
        ("description", .str (cleanup_text unescape sn))])
    | _ => .error "snippet is not text"
  | _ => .error "item is not an object"

/-- The `for item in ...` loop over the items, building `results`. -/
def extract_items (unescape : String → String) : List JVal → Except String (List JVal)
  | [] => .ok []
  | item :: rest =>
    match extract_item unescape item with
    | .ok r => (extract_items unescape rest).map (fun rs => r :: rs)
    | .error e => .error e

/-- `data.get("items", [])` as a list to iterate: a body that is no dict, or
an `items` value that is no list, ends in the exception path. -/
def body_items : JVal → Except String (List JVal)
  | .obj fs =>
    match dict_get fs "items" (JVal.arr []) with
    | .arr items => .ok items
    | _ => .error "items is not a list"
  | _ => .error "body is not an object"

/-- The `params` dict of the HTTP request, in insertion order. -/
def search_params (query : String) (num_results : Int) (key cx : String) :
    List (String × JVal) :=
  [("q", .str query), ("num", .num num_results), ("key", .str key), ("cx", .str cx)]

/-- The comprehension over `params` that skips `"key"`: the cache key
excludes the secret credential. -/
def cache_key_params (query : String) (num_results : Int) (key cx : String) :
    List (String × JVal) :=
  (search_params query num_results key cx).filter (fun kv => !(kv.1 == "key"))

/-- The cache-key parameters one invocation derives from its configuration. -/
def effective_cache_key (cfg : ToolConfig) (query : String) : List (String × JVal) :=
  cache_key_params query (max 1 (min cfg.num_results 10))
    (cfg.google_api_key.getD "") (cfg.google_cx.getD "")

/-- The envelope `\x7b"error": msg\x7d`. -/
def errEnv (msg : String) : JVal := .obj [("error", .str msg)]

/-- The decimal text of an HTTP status, as the f-string renders it. -/
def natToDec (n : Nat) : String := ⟨PyJson.natDigits n []⟩

/-- The cache-miss continuation: the single HTTP GET and what follows it. -/
def handle_miss (unescape : String → String) (net : NetResult) (now : Int)
    (ck : List (String × JVal)) (db1 : SQLiteCache.CacheDB) :
    JVal × SQLiteCache.CacheDB :=
  match net with
  | .exc m => (errEnv ("Error searching web: " ++ m), db1)
  | .http status body =>
    if status == 200 then
      match body_items body with
      | .error e => (errEnv ("Error searching web: " ++ e), db1)
      | .ok items =>
        match extract_items unescape items with
        | .error e => (errEnv ("Error searching web: " ++ e), db1)
        | .ok results =>
          if results.isEmpty then (.obj [("results", .str "No results found")], db1)
          else
            let db2 := SQLiteCache.set now "google_cse_search" (some ck)
              (.obj [("results", .arr results)]) db1
            (.obj (wrap_response [("results", .arr results)]), db2)
    else (errEnv ("Search error: " ++ natToDec status), db1)

/-- `async_call`: the whole handler.  `unescape` stands for `html.unescape`;
`net` is the network's answer to the one GET the handler may issue. -/
def async_call (unescape : String → String) (cfg : ToolConfig) (query : String)
    (net : NetResult) (now : Int) (db : SQLiteCache.CacheDB) :
    JVal × SQLiteCache.CacheDB :=
  let num_results := max 1 (min cfg.num_results 10)
  if strFalsy cfg.google_api_key || strFalsy cfg.google_cx then
    (errEnv "Google Custom Search not configured", db)
  else
    let key := cfg.google_api_key.getD ""
    let cx := cfg.google_cx.getD ""
    let ck := cache_key_params query num_results key cx
    let res := SQLiteCache.get now "google_cse_search" (some ck) db
    match res.1 with
    | some c =>
      if jTruthy c then
        match c with
        | .obj fs => (.obj (wrap_response fs), res.2)
        | _ => (errEnv ("Error searching web: " ++
            "cached value does not support item assignment"), res.2)
      else handle_miss unescape net now ck res.2
    | none => handle_miss unescape net now ck res.2

end GoogleSearchTool

example :
    (GoogleSearchTool.async_call id ⟨some "k", some "c", 2⟩ "q"
      (.http 200 (.obj [])) 0 []).1 = .obj [("results", .str "No results found")] := by
  decide

example :
    (GoogleSearchTool.async_call id ⟨none, some "c", 2⟩ "q"
      (.http 200 (.obj [])) 0 []) = (.obj [("error", .str "Google Custom Search not configured")], []) := by
  decide

example :
    (GoogleSearchTool.async_call id ⟨some "k", some "c", 2⟩ "q"
      (.http 500 (.obj [])) 10000 [⟨"k", 0, "x"⟩]).2 = [] := by
  decide

set_option maxRecDepth 4000 in
example :
    (GoogleSearchTool.async_call id ⟨some "k", some "c", 2⟩ "q"
      (.http 200 (.obj [("items", .arr [.obj [("title", .str "T"),
        ("snippet", .str " a  <b>bold</b> ")]])])) 0 []).1
    = .obj (GoogleSearchTool.wrap_response
        [("results", .arr [.obj [("title", .str "T"), ("description", .str "a bold")]])]) := by
  decide

namespace GoogleSearchTool

/-- Setting a field makes it present with the written value. -/
theorem dict_get_set_field (k : String) (v : JVal) (fs : List (String × JVal)) :
    dict_get? (set_field fs k v) k = some v := by
  by_cases hany : fs.any (fun kv => kv.1 == k) = true
  · rw [set_field, if_pos hany]
    induction fs with
    | nil => simp at hany
    | cons kv t ih =>
      by_cases hk : (kv.1 == k) = true
      · rw [List.map_cons, if_pos hk, dict_get?]
        simp [List.find?, hk]
      · have ht : t.any (fun kv => kv.1 == k) = true := by
          rcases List.any_eq_true.mp hany with ⟨x, hx, hpx⟩
          rcases List.mem_cons.mp hx with h | h
          · exact absurd (h ▸ hpx) (by simpa using hk)
          · exact List.any_eq_true.mpr ⟨x, h, hpx⟩
        simp only [List.map_cons, if_neg hk]
        rw [dict_get?, List.find?_cons_of_neg _ (by simpa using hk)]
        exact ih ht
  · rw [set_field, if_neg hany]
    have hanyf : fs.any (fun kv => kv.1 == k) = false := by
      cases h : fs.any (fun kv => kv.1 == k)
      · rfl
      · exact absurd h hany
    have hfs : fs.find? (fun kv => kv.1 == k) = none := by
      rw [List.find?_eq_none]
      intro kv hkv
      exact List.any_eq_false.mp hanyf kv hkv
    rw [dict_get?, List.find?_append, hfs]
    simp

/-- Only nonempty result lists ever reach `SQLiteCache.set`: the table
`handle_miss` leaves is the one it received, or an upsert of
`\x7b"results": [...]v\x7d` with a nonempty list. -/
theorem handle_miss_snd (unescape : String → String) (net : NetResult) (now : Int)
    (ck : List (String × JVal)) (db1 : SQLiteCache.CacheDB) :
    (handle_miss unescape net now ck db1).2 = db1 ∨
    ∃ rs, rs ≠ [] ∧ (handle_miss unescape net now ck db1).2
      = SQLiteCache.set now "google_cse_search" (some ck)
          (.obj [("results", .arr rs)]) db1 := by
  unfold handle_miss
  match net with
  | .exc m => exact .inl rfl
  | .http status body =>
    simp only []
    by_cases hs : (status == 200) = true
    · rw [if_pos hs]
      rcases hbi : body_items body with e | items
      · exact .inl rfl
      · simp only []
        rcases hex : extract_items unescape items with e | results
        · exact .inl rfl
        · simp only []
          by_cases he : results.isEmpty
          · rw [if_pos he]
            exact .inl rfl
          · rw [if_neg he]
            exact .inr ⟨results, by simpa using he, rfl⟩
    · rw [if_neg hs]
      exact .inl rfl

/-- The zero-items outcome of the HTTP 200 branch. -/
theorem handle_miss_200_empty (unescape : String → String) (now : Int)
    (ck : List (String × JVal)) (db1 : SQLiteCache.CacheDB) (body : JVal)
    (items : List JVal) (hitems : body_items body = .ok items)
    (hempty : extract_items unescape items = .ok []) :
    handle_miss unescape (.http 200 body) now ck db1
      = (.obj [("results", .str "No results found")], db1) := by
  unfold handle_miss
  simp only []
  rw [if_pos (show (200 == 200) = true from rfl), hitems]
  simp only []
  rw [hempty]
  rfl

/-- The nonempty outcome of the HTTP 200 branch: store, then reply wrapped. -/
theorem handle_miss_200_store (unescape : String → String) (now : Int)
    (ck : List (String × JVal)) (db1 : SQLiteCache.CacheDB) (body : JVal)
    (items rs : List JVal) (hitems : body_items body = .ok items)
    (hrs : extract_items unescape items = .ok rs) (hne : rs ≠ []) :
    handle_miss unescape (.http 200 body) now ck db1
      = (.obj (wrap_response [("results", .arr rs)]),
         SQLiteCache.set now "google_cse_search" (some ck)
           (.obj [("results", .arr rs)]) db1) := by
  unfold handle_miss
  simp only []
  rw [if_pos (show (200 == 200) = true from rfl), hitems]
  simp only []
  rw [hrs]
  simp only []
  rw [if_neg (by simpa using hne)]

/-- The non-200 outcome: the status is surfaced, nothing is stored. -/
theorem handle_miss_http_error (unescape : String → String) (now : Int)
    (ck : List (String × JVal)) (db1 : SQLiteCache.CacheDB) (body : JVal)
    (status : Nat) (hstat : (status == 200) = false) :
    handle_miss unescape (.http status body) now ck db1
      = (errEnv ("Search error: " ++ natToDec status), db1) := by
  unfold handle_miss
  simp only []
  rw [if_neg (by simp [hstat])]

/-- `async_call`, with its lets unfolded (definitional). -/
theorem async_call_eq (unescape : String → String) (cfg : ToolConfig) (query : String)
    (net : NetResult) (now : Int) (db : SQLiteCache.CacheDB) :
    async_call unescape cfg query net now db =
      if strFalsy cfg.google_api_key || strFalsy cfg.google_cx then
        (errEnv "Google Custom Search not configured", db)
      else
        match (SQLiteCache.get now "google_cse_search"
            (some (effective_cache_key cfg query)) db).1 with
        | some c =>
          if jTruthy c then
            match c with
            | .obj fs => (.obj (wrap_response fs),
                (SQLiteCache.get now "google_cse_search"
                  (some (effective_cache_key cfg query)) db).2)
            | _ => (errEnv ("Error searching web: " ++
                  "cached value does not support item assignment"),
                (SQLiteCache.get now "google_cse_search"
                  (some (effective_cache_key cfg query)) db).2)
          else handle_miss unescape net now (effective_cache_key cfg query)
            (SQLiteCache.get now "google_cse_search"
              (some (effective_cache_key cfg query)) db).2
        | none => handle_miss unescape net now (effective_cache_key cfg query)
            (SQLiteCache.get now "google_cse_search"
              (some (effective_cache_key cfg query)) db).2 := rfl

/-- On a cache miss with valid credentials, `async_call` is the miss
continuation applied to the swept table. -/
theorem async_call_miss (unescape : String → String) (cfg : ToolConfig) (query : String)
    (net : NetResult) (now : Int) (db : SQLiteCache.CacheDB)
    (hkey : strFalsy cfg.google_api_key = false) (hcx : strFalsy cfg.google_cx = false)
    (hmiss : optTruthy (SQLiteCache.get now "google_cse_search"
      (some (effective_cache_key cfg query)) db).1 = false) :
    async_call unescape cfg query net now db
      = handle_miss unescape net now (effective_cache_key cfg query)
          (SQLiteCache._cleanup now db) := by
  rw [async_call_eq, if_neg (by simp [hkey, hcx])]
  rcases hget : (SQLiteCache.get now "google_cse_search"
      (some (effective_cache_key cfg query)) db).1 with _ | c
  · rw [SQLiteCache.get_snd]
  · rw [hget] at hmiss
    simp only []
    rw [show jTruthy c = false from by simpa [optTruthy] using hmiss, SQLiteCache.get_snd]
    simp

end GoogleSearchTool

namespace GoogleSearchTool

/-- Every outcome of the miss continuation: an error envelope over the table
it received, the bare zero-items reply, or a wrapped nonempty store. -/
theorem handle_miss_shape (unescape : String → String) (net : NetResult) (now : Int)
    (ck : List (String × JVal)) (db1 : SQLiteCache.CacheDB) :
    (∃ m, handle_miss unescape net now ck db1 = (errEnv m, db1)) ∨
    handle_miss unescape net now ck db1
      = (.obj [("results", .str "No results found")], db1) ∨
    (∃ rs, rs ≠ [] ∧ handle_miss unescape net now ck db1
        = (.obj (wrap_response [("results", .arr rs)]),
           SQLiteCache.set now "google_cse_search" (some ck)
             (.obj [("results", .arr rs)]) db1)) := by
  unfold handle_miss
  match net with
  | .exc m => exact .inl ⟨_, rfl⟩
  | .http status body =>
    simp only []
    by_cases hs : (status == 200) = true
    · rw [if_pos hs]
      rcases hbi : body_items body with e | items
      · exact .inl ⟨_, rfl⟩
      · simp only []
        rcases hex : extract_items unescape items with e | results
        · exact .inl ⟨_, rfl⟩
        · simp only []
          by_cases he : results.isEmpty
          · rw [if_pos he]
            exact .inr (.inl rfl)
          · rw [if_neg he]
            exact .inr (.inr ⟨results, by simpa using he, rfl⟩)
    · rw [if_neg hs]
      exact .inl ⟨_, rfl⟩

/-- Every run of `async_call` ends in one of five shapes: the configuration
error with the table untouched; an error envelope over the swept table; a
wrapped cache hit over the swept table; the bare zero-items reply over the
swept table; or a wrapped nonempty result stored into the swept table. -/
theorem async_call_shape (unescape : String → String) (cfg : ToolConfig)
    (query : String) (net : NetResult) (now : Int) (db : SQLiteCache.CacheDB) :
    (∃ m, async_call unescape cfg query net now db = (errEnv m, db)) ∨
    (∃ m, async_call unescape cfg query net now db
        = (errEnv m, SQLiteCache._cleanup now db)) ∨
    (∃ fs, async_call unescape cfg query net now db
        = (.obj (wrap_response fs), SQLiteCache._cleanup now db)) ∨
    async_call unescape cfg query net now db
      = (.obj [("results", .str "No results found")], SQLiteCache._cleanup now db) ∨
    (∃ rs, rs ≠ [] ∧ async_call unescape cfg query net now db
        = (.obj (wrap_response [("results", .arr rs)]),
           SQLiteCache.set now "google_cse_search" (some (effective_cache_key cfg query))
             (.obj [("results", .arr rs)]) (SQLiteCache._cleanup now db))) := by
  by_cases hcfg : (strFalsy cfg.google_api_key || strFalsy cfg.google_cx) = true
  · exact .inl ⟨"Google Custom Search not configured",
      by rw [async_call_eq, if_pos hcfg]⟩
  · simp only [Bool.or_eq_true, not_or, Bool.not_eq_true] at hcfg
    obtain ⟨hk, hc⟩ := hcfg
    rcases hget : (SQLiteCache.get now "google_cse_search"
        (some (effective_cache_key cfg query)) db).1 with _ | c
    · rw [async_call_miss unescape cfg query net now db hk hc
        (by rw [hget]; rfl)]
      rcases handle_miss_shape unescape net now (effective_cache_key cfg query)
          (SQLiteCache._cleanup now db) with ⟨m, h⟩ | h | ⟨rs, hne, h⟩
      · exact .inr (.inl ⟨m, h⟩)
      · exact .inr (.inr (.inr (.inl h)))
      · exact .inr (.inr (.inr (.inr ⟨rs, hne, h⟩)))
    · by_cases ht : jTruthy c = true
      · rw [async_call_eq, if_neg (by simp [hk, hc]), hget]
        simp only []
        rw [if_pos ht]
        rcases c with _ | b | n | s | its | fs <;> simp only [] <;>
          rw [SQLiteCache.get_snd]
        · exact .inr (.inl ⟨_, rfl⟩)
        · exact .inr (.inl ⟨_, rfl⟩)
        · exact .inr (.inl ⟨_, rfl⟩)
        · exact .inr (.inl ⟨_, rfl⟩)
        · exact .inr (.inl ⟨_, rfl⟩)
        · exact .inr (.inr (.inl ⟨fs, rfl⟩))
      · rw [Bool.not_eq_true] at ht
        rw [async_call_miss unescape cfg query net now db hk hc
          (by rw [hget]; simpa [optTruthy] using ht)]
        rcases handle_miss_shape unescape net now (effective_cache_key cfg query)
            (SQLiteCache._cleanup now db) with ⟨m, h⟩ | h | ⟨rs, hne, h⟩
        · exact .inr (.inl ⟨m, h⟩)
        · exact .inr (.inr (.inr (.inl h)))
        · exact .inr (.inr (.inr (.inr ⟨rs, hne, h⟩)))

/-- C6: with either credential absent from the configuration, `async_call`
answers the fixed error envelope and hands the table back untouched — no
cache operation happens — and the answer is the same whatever the network
would have said, which it never consults. -/
theorem unconfigured_error (unescape : String → String) (cfg : ToolConfig)
    (query : String) (net : NetResult) (now : Int) (db : SQLiteCache.CacheDB)
    (h : cfg.google_api_key = none ∨ cfg.google_cx = none) :
    async_call unescape cfg query net now db
      = (errEnv "Google Custom Search not configured", db) := by
  rw [async_call_eq, if_pos]
  rcases h with h | h <;> simp [h, strFalsy]

theorem unconfigured_error_witness :
    async_call id ⟨none, some "c", 2⟩ "q" (.exc "boom") 0 []
      = (errEnv "Google Custom Search not configured", []) :=
  unconfigured_error id ⟨none, some "c", 2⟩ "q" (.exc "boom") 0 [] (Or.inl rfl)

/-- C5: two configurations that differ only in the secret credential derive
the same cache-key parameters — and hence the same hashed cache key — and no
member of those parameters is the credential member `"key"`. -/
theorem cache_key_excludes_credential (cfg1 cfg2 : ToolConfig) (query : String)
    (hcx : cfg1.google_cx = cfg2.google_cx)
    (hnum : cfg1.num_results = cfg2.num_results) :
    effective_cache_key cfg1 query = effective_cache_key cfg2 query ∧
    SQLiteCache._make_key "google_cse_search" (some (effective_cache_key cfg1 query))
      = SQLiteCache._make_key "google_cse_search" (some (effective_cache_key cfg2 query)) ∧
    ∀ kv ∈ effective_cache_key cfg1 query, kv.1 ≠ "key" := by
  have h1 : effective_cache_key cfg1 query
      = [("q", .str query), ("num", .num (max 1 (min cfg1.num_results 10))),
         ("cx", .str (cfg1.google_cx.getD ""))] := rfl
  have h2 : effective_cache_key cfg2 query
      = [("q", .str query), ("num", .num (max 1 (min cfg2.num_results 10))),
         ("cx", .str (cfg2.google_cx.getD ""))] := rfl
  have heq : effective_cache_key cfg1 query = effective_cache_key cfg2 query := by
    rw [h1, h2, hcx, hnum]
  refine ⟨heq, by rw [heq], ?_⟩
  intro kv hkv
  rw [h1] at hkv
  simp only [List.mem_cons, List.not_mem_nil, or_false] at hkv
  rcases hkv with rfl | rfl | rfl <;> simp

theorem cache_key_excludes_credential_witness :
    effective_cache_key ⟨some "k1", some "c", 2⟩ "q"
      = effective_cache_key ⟨some "k2", some "c", 2⟩ "q" ∧
    SQLiteCache._make_key "google_cse_search"
        (some (effective_cache_key ⟨some "k1", some "c", 2⟩ "q"))
      = SQLiteCache._make_key "google_cse_search"
        (some (effective_cache_key ⟨some "k2", some "c", 2⟩ "q")) :=
  ⟨(cache_key_excludes_credential ⟨some "k1", some "c", 2⟩ ⟨some "k2", some "c", 2⟩
      "q" rfl rfl).1,
   (cache_key_excludes_credential ⟨some "k1", some "c", 2⟩ ⟨some "k2", some "c", 2⟩
      "q" rfl rfl).2.1⟩

/-- C7: an HTTP 200 answer from which zero items are extracted replies
`\x7b"results": "No results found"\x7d` and writes nothing — the table is
exactly the swept input — and, whatever the network answers, the table comes
back swept-only or written with a nonempty result list. -/
theorem empty_results_not_cached (unescape : String → String) (cfg : ToolConfig)
    (query : String) (body : JVal) (items : List JVal) (now : Int)
    (db : SQLiteCache.CacheDB)
    (hkey : strFalsy cfg.google_api_key = false)
    (hcx : strFalsy cfg.google_cx = false)
    (hmiss : optTruthy (SQLiteCache.get now "google_cse_search"
      (some (effective_cache_key cfg query)) db).1 = false)
    (hitems : body_items body = .ok items)
    (hempty : extract_items unescape items = .ok []) :
    async_call unescape cfg query (.http 200 body) now db
      = (.obj [("results", .str "No results found")], SQLiteCache._cleanup now db) ∧
    ∀ net2, (async_call unescape cfg query net2 now db).2 = SQLiteCache._cleanup now db ∨
      ∃ rs, rs ≠ [] ∧ (async_call unescape cfg query net2 now db).2
        = SQLiteCache.set now "google_cse_search" (some (effective_cache_key cfg query))
            (.obj [("results", .arr rs)]) (SQLiteCache._cleanup now db) := by
  constructor
  · rw [async_call_miss unescape cfg query (.http 200 body) now db hkey hcx hmiss]
    exact handle_miss_200_empty unescape now (effective_cache_key cfg query)
      (SQLiteCache._cleanup now db) body items hitems hempty
  · intro net2
    rw [async_call_miss unescape cfg query net2 now db hkey hcx hmiss]
    exact handle_miss_snd unescape net2 now (effective_cache_key cfg query)
      (SQLiteCache._cleanup now db)

theorem empty_results_not_cached_witness :
    async_call id ⟨some "k", some "c", 2⟩ "q" (.http 200 (.obj [])) 0 []
      = (.obj [("results", .str "No results found")], SQLiteCache._cleanup 0 []) :=
  (empty_results_not_cached id ⟨some "k", some "c", 2⟩ "q" (.obj []) [] 0 []
    rfl rfl (by decide) rfl rfl).1

/-- C3 is refuted on the zero-items path: the reply there carries neither an
`error` member nor the `instruction` member — the dict is returned without
passing through `wrap_response`. -/
theorem zero_items_reply_lacks_instruction :
    jGet (async_call id ⟨some "k", some "c", 2⟩ "q"
        (.http 200 (.obj [])) 0 []).1 "error" = none ∧
    jGet (async_call id ⟨some "k", some "c", 2⟩ "q"
        (.http 200 (.obj [])) 0 []).1 "instruction" = none ∧
    jGet (async_call id ⟨some "k", some "c", 2⟩ "q"
        (.http 200 (.obj [])) 0 []).1 "results" = some (.str "No results found") := by
  decide

/-- C3 (amended): a reply without an `error` member either carries the
verbatim instruction member or is the bare zero-items reply
`\x7b"results": "No results found"\x7d`, which skips `wrap_response`; and the
instruction is never stored — the table comes back untouched, merely swept,
or written with a payload that has no `instruction` member. -/
theorem instruction_attached_except_zero_items (unescape : String → String)
    (cfg : ToolConfig) (query : String) (net : NetResult) (now : Int)
    (db : SQLiteCache.CacheDB)
    (herr : jGet (async_call unescape cfg query net now db).1 "error" = none) :
    (jGet (async_call unescape cfg query net now db).1 "instruction"
        = some (.str response_instruction) ∨
      (async_call unescape cfg query net now db).1
        = .obj [("results", .str "No results found")]) ∧
    ((async_call unescape cfg query net now db).2 = db ∨
      (async_call unescape cfg query net now db).2 = SQLiteCache._cleanup now db ∨
      ∃ rs, (async_call unescape cfg query net now db).2
          = SQLiteCache.set now "google_cse_search"
              (some (effective_cache_key cfg query)) (.obj [("results", .arr rs)])
              (SQLiteCache._cleanup now db) ∧
        jGet (.obj [("results", .arr rs)]) "instruction" = none) := by
  rcases async_call_shape unescape cfg query net now db with
    ⟨m, h⟩ | ⟨m, h⟩ | ⟨fs, h⟩ | h | ⟨rs, _hne, h⟩
  · rw [h] at herr
    exact Option.noConfusion
      ((show jGet (errEnv m, db).1 "error" = some (.str m) from rfl).symm.trans herr)
  · rw [h] at herr
    exact Option.noConfusion
      ((show jGet (errEnv m, SQLiteCache._cleanup now db).1 "error" = some (.str m)
        from rfl).symm.trans herr)
  · rw [h]
    exact ⟨.inl (dict_get_set_field "instruction" (.str response_instruction) fs),
      .inr (.inl rfl)⟩
  · rw [h]
    exact ⟨.inr rfl, .inr (.inl rfl)⟩
  · rw [h]
    exact ⟨.inl (dict_get_set_field "instruction" (.str response_instruction)
        [("results", .arr rs)]),
      .inr (.inr ⟨rs, rfl, rfl⟩)⟩

theorem instruction_attached_except_zero_items_witness :
    jGet (async_call id ⟨some "k", some "c", 2⟩ "q"
        (.http 200 (.obj [("items", .arr [])])) 0 []).1 "instruction"
      = some (.str response_instruction) ∨
    (async_call id ⟨some "k", some "c", 2⟩ "q"
        (.http 200 (.obj [("items", .arr [])])) 0 []).1
      = .obj [("results", .str "No results found")] :=
  (instruction_attached_except_zero_items id ⟨some "k", some "c", 2⟩ "q"
    (.http 200 (.obj [("items", .arr [])])) 0 [] (by decide)).1

/-- C9 is refuted on the table: a non-200 answer surfaces the status, but the
sweep the `get` ran first has already deleted the expired row, so the cache
is not left unchanged. -/
theorem http_error_deletes_expired_row :
    (async_call id ⟨some "k", some "c", 2⟩ "q" (.http 500 .null) 10000
        [⟨"k", 0, "x"⟩]).1 = errEnv "Search error: 500" ∧
    (async_call id ⟨some "k", some "c", 2⟩ "q" (.http 500 .null) 10000
        [⟨"k", 0, "x"⟩]).2 ≠ [⟨"k", 0, "x"⟩] := by
  decide

/-- C9 (amended): on a non-200 status (after a cache miss with credentials
present) the tool answers `\x7b"error": "Search error: <status>"\x7d` with the
status surfaced, and stores nothing: the table is exactly the swept input —
unchanged up to the expiry sweep the lookup performed. -/
theorem http_error_no_store (unescape : String → String) (cfg : ToolConfig)
    (query : String) (body : JVal) (status : Nat) (now : Int)
    (db : SQLiteCache.CacheDB)
    (hkey : strFalsy cfg.google_api_key = false)
    (hcx : strFalsy cfg.google_cx = false)
    (hmiss : optTruthy (SQLiteCache.get now "google_cse_search"
      (some (effective_cache_key cfg query)) db).1 = false)
    (hstat : (status == 200) = false) :
    async_call unescape cfg query (.http status body) now db
      = (errEnv ("Search error: " ++ natToDec status), SQLiteCache._cleanup now db) := by
  rw [async_call_miss unescape cfg query (.http status body) now db hkey hcx hmiss]
  exact handle_miss_http_error unescape now (effective_cache_key cfg query)
    (SQLiteCache._cleanup now db) body status hstat

theorem http_error_no_store_witness :
    async_call id ⟨some "k", some "c", 2⟩ "q" (.http 500 .null) 0 []
      = (errEnv ("Search error: " ++ natToDec 500), SQLiteCache._cleanup 0 []) :=
  http_error_no_store id ⟨some "k", some "c", 2⟩ "q" .null 500 0 []
    rfl rfl (by decide) rfl

end GoogleSearchTool

theorem set_get_roundtrip_witness :
    (0 : Int) - SQLiteCache.DEFAULT_MAX_AGE ≤ 0 ∧
    (SQLiteCache.get 0 "t" none (SQLiteCache.set 0 "t" none .null [])).1 = some .null :=
  ⟨by decide, SQLiteCache.set_get_roundtrip [] "t" none .null 0 0 (by decide)⟩

theorem get_never_returns_expired_witness :
    (⟨"k", 0, "x"⟩ : SQLiteCache.CacheRow)
      ∉ (SQLiteCache.get 10000 "t" none [⟨"k", 0, "x"⟩]).2 ∧
    (SQLiteCache.get 10000 "t" none [⟨"k", 0, "x"⟩]).1 = none :=
  have h := SQLiteCache.get_never_returns_expired [⟨"k", 0, "x"⟩] "t" none 10000
    ⟨"k", 0, "x"⟩ (by decide) (by decide)
  ⟨h.1, h.2 (by
    intro q hq _
    rw [List.mem_singleton] at hq
    subst hq
    decide)⟩

theorem make_key_order_invariant_witness :
    SQLiteCache._make_key "t" (some [("a", .null), ("b", .null)])
      = SQLiteCache._make_key "t" (some [("b", .null), ("a", .null)]) :=
  SQLiteCache.make_key_order_invariant "t" [("a", .null), ("b", .null)]
    [("b", .null), ("a", .null)]
    (List.Perm.swap ("b", JVal.null) ("a", JVal.null) []) (by decide)

theorem corrupt_payload_is_miss_witness :
    (SQLiteCache.get 0 "t" none [⟨SQLiteCache._make_key "t" none, 0, "x"⟩]).1 = none ∧
    (⟨SQLiteCache._make_key "t" none, 0, "x"⟩ : SQLiteCache.CacheRow)
      ∈ (SQLiteCache.get 0 "t" none [⟨SQLiteCache._make_key "t" none, 0, "x"⟩]).2 :=
  SQLiteCache.corrupt_payload_is_miss [⟨SQLiteCache._make_key "t" none, 0, "x"⟩]
    "t" none 0 ⟨SQLiteCache._make_key "t" none, 0, "x"⟩
    (List.mem_singleton.mpr rfl) rfl (by decide) (by decide) (by simp)

theorem make_key_concat_collision_witness :
    SQLiteCache._make_key "t" (some [])
      = SQLiteCache._make_key ("t" ++ PyJson.dumpsCanonical (JVal.obj [])) none ∧
    ("t", some ([] : List (String × JVal)))
      ≠ ("t" ++ PyJson.dumpsCanonical (JVal.obj []),
         (none : Option (List (String × JVal)))) :=
  SQLiteCache.make_key_concat_collision "t" []
